import Mathlib

/-!
# Verification of the Responses-API relay pipeline

Shallow embedding of the two core components of the repository:

* the **Relay Adapter** (the `start` callback of the `ReadableStream` in the
  web-search-enabled chat route): consumes a list of upstream protocol events
  and produces the list of outbound frames written to the SSE stream;
* the **Stream Reader** (the body of `handleSubmit` in `src/app/page.tsx`):
  consumes the decoded records of the outbound stream and produces the final
  client state (messages, event log, error banner, search-results view,
  total elapsed time).

Machine-level concerns (byte encoding, chunk boundaries, React re-renders)
are abstracted: the adapter is modelled at the level of one upstream event
per loop iteration, the reader at the level of one decoded record per loop
iteration, which is exactly the granularity at which the source manipulates
the data.  Wall-clock reads (`Date.now()`) are modelled by explicit time
stamps attached to events and records.
-/

namespace ResponsesRelay

/-- JavaScript `s || d` for an optional string field: `undefined`/`null` and
the empty string are falsy and give the default. -/
def jsOr : Option String → String → String
  | some v, d => if v = "" then d else v
  | none, d => d

/-- A raw web-search result object as found on an upstream
`response.web_search_call.results` event; the fields may be absent. -/
structure SearchResult where
  title : Option String
  url : Option String
  snippet : Option String
  deriving Repr, DecidableEq

/-- The adapter's normalization `{title: result.title || '', url: result.url
|| '', snippet: result.snippet || ''}`. -/
def normResult (r : SearchResult) : SearchResult :=
  { title := some (jsOr r.title ""), url := some (jsOr r.url ""),
    snippet := some (jsOr r.snippet "") }

/-- One upstream protocol event, restricted to the fields the route
inspects: `event.type`, `event.delta`, `event.results`,
`event.error?.message`, `event.response?.incomplete_details`.  `time` is the
value `Date.now()` returns when the adapter processes the event.  An absent
or empty `type` models the `!event.type` guard. -/
structure UpEvent where
  type : String
  time : Nat
  delta : Option String
  results : Option (List SearchResult)
  errorMessage : Option String
  incompleteDetails : Option String
  deriving Repr, DecidableEq

/-- The payload carried by an outbound `event` frame: either a raw upstream
event passed through unchanged, or one of the objects the route constructs
itself. `synthCompleted` is the safety-net object
`{type: 'response.completed'}`. -/
inductive EventPayload where
  | raw (e : UpEvent)
  | webSearchStarted (ts : Nat)
  | webSearchResults (ts : Nat) (results : List SearchResult)
  | webSearchCompleted (ts : Nat) (resultCount : Nat)
  | webSearchFailed (ts : Nat) (errMsg : String)
  | outputTextDone (ts : Nat) (finalText : String)
  | synthCompleted
  deriving Repr, DecidableEq

/-- The `type` field of the payload object, which the client dispatches on. -/
def EventPayload.kind : EventPayload → String
  | .raw e => e.type
  | .webSearchStarted _ => "web_search.started"
  | .webSearchResults _ _ => "web_search.results"
  | .webSearchCompleted _ _ => "web_search.completed"
  | .webSearchFailed _ _ => "web_search.failed"
  | .outputTextDone _ _ => "response.output_text.done"
  | .synthCompleted => "response.completed"

/-- The `results` field of the payload object (for the client's
`parsed.value.results` check). -/
def EventPayload.resultsField : EventPayload → Option (List SearchResult)
  | .raw e => e.results
  | .webSearchResults _ rs => some rs
  | _ => none

/-- One outbound frame, as serialized into a `data: {...}` SSE record:
`{type:'text',value}`, `{type:'event',value}`, `{type:'error',value:
{message, details?}}`, `{type:'done'}`. -/
inductive Frame where
  | text (delta : String)
  | event (value : EventPayload)
  | error (message : String) (details : Option String)
  | done
  deriving Repr, DecidableEq

/-- Terminal frames: `done` and `error`. -/
def Frame.isTerminal : Frame → Bool
  | .error _ _ => true
  | .done => true
  | _ => false

/-- The relay loop of the route's stream `start` callback.  Arguments after
the event list are the mutable locals `currentMessage`, `lastEventType` and
`webSearchResults`; the result is the list of frames enqueued on the
controller.  The `catch` around the loop turns the `throw` of the
`response.failed` case into a single `error` frame; `response.completed` and
`response.incomplete` return from inside the loop; exhaustion runs the
safety net guarded by `lastEventType !== 'response.completed'`. -/
def processEvents : List UpEvent → String → String → List SearchResult → List Frame
  | [], _, lastType, _ =>
    if lastType = "response.completed" then []
    else [.event .synthCompleted, .done]
  | e :: rest, cur, lastType, acc =>
    if e.type = "" then processEvents rest cur lastType acc
    else if e.type = "response.created" ∨ e.type = "response.in_progress" ∨
        e.type = "response.output_item.added" ∨ e.type = "response.content_part.added" then
      .event (.raw e) :: processEvents rest cur e.type acc
    else if e.type = "response.web_search_call.searching" then
      .event (.webSearchStarted e.time) :: processEvents rest cur e.type acc
    else if e.type = "response.web_search_call.results" then
      match e.results with
      | some rs =>
        .event (.webSearchResults e.time (rs.map normResult)) :: processEvents rest cur e.type rs
      | none => processEvents rest cur e.type acc
    else if e.type = "response.web_search_call.completed" then
      .event (.webSearchCompleted e.time acc.length) :: processEvents rest cur e.type acc
    else if e.type = "response.web_search_call.failed" then
      .event (.webSearchFailed e.time (jsOr e.errorMessage "Web search failed")) ::
        processEvents rest cur e.type acc
    else if e.type = "response.output_text.delta" then
      match e.delta with
      | some d =>
        if d = "" then processEvents rest cur e.type acc
        else .text d :: processEvents rest (cur ++ d) e.type acc
      | none => processEvents rest cur e.type acc
    else if e.type = "response.output_text.done" then
      .event (.outputTextDone e.time cur) :: processEvents rest cur e.type acc
    else if e.type = "response.output_item.done" ∨ e.type = "response.content_part.done" then
      .event (.raw e) :: processEvents rest cur e.type acc
    else if e.type = "response.completed" then
      [.event (.raw e), .done]
    else if e.type = "response.failed" then
      [.error (jsOr e.errorMessage "Response failed") none]
    else if e.type = "response.incomplete" then
      [.error "Response incomplete" e.incompleteDetails]
    else
      processEvents rest cur e.type acc

/-- The Relay Adapter: the frames emitted for one upstream session, starting
from empty accumulators. -/
def relayAdapter (events : List UpEvent) : List Frame :=
  processEvents events "" "" []

/-- Concatenation of the deltas of all `text` frames of a frame list. -/
def textConcat : List Frame → String
  | [] => ""
  | .text d :: rest => d ++ textConcat rest
  | _ :: rest => textConcat rest

/-! ## The Stream Reader (client, `handleSubmit` in `src/app/page.tsx`) -/

/-- One chat message as held in the client's `messages` state. -/
structure Msg where
  id : Nat
  role : String
  content : String
  deriving Repr, DecidableEq

/-- The `data` field of an event-log entry: the initial request
configuration object, or the payload of a received `event` frame. -/
inductive EntryData where
  | request
  | payload (p : EventPayload)
  deriving Repr, DecidableEq

/-- One entry of the client's `apiEvents` log; `elapsed` is the
`elapsedSinceLastEvent` field, absent on the initial request entry. -/
structure LogEntry where
  type : String
  timestamp : Nat
  data : EntryData
  elapsed : Option Int
  deriving Repr, DecidableEq

/-- The client state touched by `handleSubmit`: the React state plus the
loop locals `assistantMessage` and `lastEventTime`, and the constant
`startTime`. -/
structure ClientState where
  messages : List Msg
  apiEvents : List LogEntry
  errorMsg : Option String
  webSearchResults : List SearchResult
  totalElapsed : Option Int
  assistant : Msg
  lastEventTime : Nat
  requestStart : Nat
  deriving Repr, DecidableEq

/-- One decoded line of the outbound stream, after the `data: ` prefix
handling: a skipped line (blank or unprefixed), the `[DONE]` sentinel, a
record that parses to a frame (`t` is `Date.now()` at processing), or a
record whose JSON parse throws with message `msg`. -/
inductive RecordItem where
  | blank
  | sentinel
  | frame (f : Frame) (t : Nat)
  | malformed (msg : String)
  deriving Repr, DecidableEq

/-- The `catch` block: sets the error banner and removes the in-progress
assistant message from the conversation. -/
def applyCatch (st : ClientState) (msg : String) : ClientState :=
  { st with errorMsg := some msg,
            messages := st.messages.filter (fun m => m.id != st.assistant.id) }

/-- Processing of one decoded record in the reader loop, returning the next
state or the message of the exception thrown (error frame, malformed
record). -/
def stepRecord (st : ClientState) : RecordItem → Except String ClientState
  | .blank => .ok st
  | .sentinel => .ok st
  | .malformed msg => .error msg
  | .frame f t =>
    match f with
    | .text d =>
      let a : Msg := { st.assistant with content := st.assistant.content ++ d }
      .ok { st with assistant := a,
                    messages := st.messages.map (fun m => if m.id = a.id then a else m) }
    | .event p =>
      let entry : LogEntry :=
        { type := p.kind, timestamp := t, data := .payload p,
          elapsed := some ((t : Int) - (st.lastEventTime : Int)) }
      let ws :=
        if p.kind = "web_search.results" then
          match p.resultsField with
          | some rs => rs
          | none => st.webSearchResults
        else st.webSearchResults
      let te :=
        if p.kind = "response.completed" then some ((t : Int) - (st.requestStart : Int))
        else st.totalElapsed
      .ok { st with apiEvents := st.apiEvents ++ [entry],
                    lastEventTime := t,
                    webSearchResults := ws,
                    totalElapsed := te }
    | .error m _ => .error m
    | .done => .ok st

/-- The reader loop over all decoded records; a thrown exception lands in
the `catch` block with the state reached so far. -/
def runRecords (st : ClientState) : List RecordItem → ClientState
  | [] => st
  | r :: rest =>
    match stepRecord st r with
    | .ok st2 => runRecords st2 rest
    | .error msg => applyCatch st msg

/-- The outcome of issuing the request: a non-ok HTTP status (`throw new
Error('Failed to send message')`), a missing body stream (`throw new
Error('No response stream available')`), or a stream of decoded records. -/
inductive ReadInput where
  | httpError
  | noStream
  | stream (records : List RecordItem)
  deriving Repr, DecidableEq

/-- The initial `request` entry seeded into `apiEvents` before the stream
is read. -/
def requestEntry (startTime : Nat) : LogEntry :=
  { type := "request", timestamp := startTime, data := .request, elapsed := none }

/-- Client state after the synchronous prologue of `handleSubmit`: both the
user message and an empty assistant message are appended, the log is reset
to the single request entry, error and timing state are cleared. -/
def initState (prev : List Msg) (userMsg : Msg) (aid : Nat) (startTime : Nat) : ClientState :=
  let a : Msg := { id := aid, role := "assistant", content := "" }
  { messages := prev ++ [userMsg, a],
    apiEvents := [requestEntry startTime],
    errorMsg := none,
    webSearchResults := [],
    totalElapsed := none,
    assistant := a,
    lastEventTime := startTime,
    requestStart := startTime }

/-- The Stream Reader: full run of `handleSubmit` after the user message is
known, on one of the possible request outcomes. -/
def streamReader (prev : List Msg) (userMsg : Msg) (aid : Nat) (startTime : Nat) :
    ReadInput → ClientState
  | .httpError => applyCatch (initState prev userMsg aid startTime) "Failed to send message"
  | .noStream => applyCatch (initState prev userMsg aid startTime) "No response stream available"
  | .stream records => runRecords (initState prev userMsg aid startTime) records

/-- Frames paired with the `Date.now()` values observed when the client
processes them (0 once the time list is exhausted). -/
def recordsOf : List Frame → List Nat → List RecordItem
  | [], _ => []
  | f :: fs, t :: ts => .frame f t :: recordsOf fs ts
  | f :: fs, [] => .frame f 0 :: recordsOf fs []

/-! ## Terminal-frame shape of the adapter output -/

/-- A frame list that ends in exactly one terminal frame. -/
def endsWithTerminal (l : List Frame) : Prop :=
  ∃ fs t, l = fs ++ [t] ∧ Frame.isTerminal t = true ∧ ∀ f ∈ fs, Frame.isTerminal f = false

lemma shape_cons (x : Frame) (hx : Frame.isTerminal x = false) {l : List Frame}
    (h : endsWithTerminal l) : endsWithTerminal (x :: l) := by
  obtain ⟨fs, t, rfl, ht, hall⟩ := h
  refine ⟨x :: fs, t, rfl, ht, ?_⟩
  intro f hf
  rcases List.mem_cons.mp hf with rfl | hf'
  · exact hx
  · exact hall f hf'

lemma processEvents_shape (events : List UpEvent) (cur lastType : String)
    (acc : List SearchResult) :
    lastType ≠ "response.completed" → endsWithTerminal (processEvents events cur lastType acc) := by
  induction events, cur, lastType, acc using processEvents.induct with
  | case1 cur acc => exact fun h => absurd rfl h
  | case2 cur lastType acc h0 =>
    intro _
    simp only [processEvents, if_neg h0]
    exact ⟨[.event .synthCompleted], .done, rfl, rfl, by simp [Frame.isTerminal]⟩
  | case3 e rest cur lastType acc h0 ih =>
    intro h
    simp only [processEvents, if_pos h0]
    exact ih h
  | case4 e rest cur lastType acc h0 h1 ih =>
    intro _
    rcases h1 with h1 | h1 | h1 | h1 <;>
      (simp only [h1] at ih; simp [processEvents, h1];
       exact shape_cons _ (by simp [Frame.isTerminal]) (ih (by decide)))
  | case5 e rest cur lastType acc h0 h1 h2 ih =>
    intro _
    simp only [h2] at ih
    simp [processEvents, h2]
    exact shape_cons _ (by simp [Frame.isTerminal]) (ih (by decide))
  | case6 e rest cur lastType acc h0 h1 h2 h3 rs hres ih =>
    intro _
    simp only [h3] at ih
    simp [processEvents, h3, hres]
    exact shape_cons _ (by simp [Frame.isTerminal]) (ih (by decide))
  | case7 e rest cur lastType acc h0 h1 h2 h3 hres ih =>
    intro _
    simp only [h3] at ih
    simp [processEvents, h3, hres]
    exact ih (by decide)
  | case8 e rest cur lastType acc h0 h1 h2 h3 h4 ih =>
    intro _
    simp only [h4] at ih
    simp [processEvents, h4]
    exact shape_cons _ (by simp [Frame.isTerminal]) (ih (by decide))
  | case9 e rest cur lastType acc h0 h1 h2 h3 h4 h5 ih =>
    intro _
    simp only [h5] at ih
    simp [processEvents, h5]
    exact shape_cons _ (by simp [Frame.isTerminal]) (ih (by decide))
  | case10 e rest cur lastType acc h0 h1 h2 h3 h4 h5 h6 hdelta ih =>
    intro _
    simp only [h6] at ih
    simp [processEvents, h6, hdelta]
    exact ih (by decide)
  | case11 e rest cur lastType acc h0 h1 h2 h3 h4 h5 h6 d hdelta hd ih =>
    intro _
    simp only [h6] at ih
    simp [processEvents, h6, hdelta, hd]
    exact shape_cons _ (by simp [Frame.isTerminal]) (ih (by decide))
  | case12 e rest cur lastType acc h0 h1 h2 h3 h4 h5 h6 hdelta ih =>
    intro _
    simp only [h6] at ih
    simp [processEvents, h6, hdelta]
    exact ih (by decide)
  | case13 e rest cur lastType acc h0 h1 h2 h3 h4 h5 h6 h7 ih =>
    intro _
    simp only [h7] at ih
    simp [processEvents, h7]
    exact shape_cons _ (by simp [Frame.isTerminal]) (ih (by decide))
  | case14 e rest cur lastType acc h0 h1 h2 h3 h4 h5 h6 h7 h8 ih =>
    intro _
    rcases h8 with h8 | h8 <;>
      (simp only [h8] at ih; simp [processEvents, h8];
       exact shape_cons _ (by simp [Frame.isTerminal]) (ih (by decide)))
  | case15 e rest cur lastType acc h0 h1 h2 h3 h4 h5 h6 h7 h8 h9 =>
    intro _
    simp [processEvents, h9]
    exact ⟨[.event (.raw e)], .done, rfl, rfl, by simp [Frame.isTerminal]⟩
  | case16 e rest cur lastType acc h0 h1 h2 h3 h4 h5 h6 h7 h8 h9 h10 =>
    intro _
    simp [processEvents, h10]
    exact ⟨[], .error (jsOr e.errorMessage "Response failed") none, rfl, rfl, by simp⟩
  | case17 e rest cur lastType acc h0 h1 h2 h3 h4 h5 h6 h7 h8 h9 h10 h11 =>
    intro _
    simp [processEvents, h11]
    exact ⟨[], .error "Response incomplete" e.incompleteDetails, rfl, rfl, by simp⟩
  | case18 e rest cur lastType acc h0 h1 h2 h3 h4 h5 h6 h7 h8 h9 h10 h11 ih =>
    intro _
    simp only [processEvents, if_neg h0, if_neg h1, if_neg h2, if_neg h3, if_neg h4,
      if_neg h5, if_neg h6, if_neg h7, if_neg h8, if_neg h9, if_neg h10, if_neg h11]
    exact ih h9

/-! ## Stepping over non-terminal events -/

/-- Upstream event kinds that end the relay loop early (terminal-success,
terminal-failure, terminal-incomplete). -/
def terminalType (t : String) : Bool :=
  t == "response.completed" || t == "response.failed" || t == "response.incomplete"

/-- The upstream event vocabulary recognized by the adapter's switch. -/
def recognizedType (t : String) : Bool :=
  t == "response.created" || t == "response.in_progress" ||
  t == "response.output_item.added" || t == "response.content_part.added" ||
  t == "response.web_search_call.searching" || t == "response.web_search_call.results" ||
  t == "response.web_search_call.completed" || t == "response.web_search_call.failed" ||
  t == "response.output_text.delta" || t == "response.output_text.done" ||
  t == "response.output_item.done" || t == "response.content_part.done" ||
  t == "response.completed" || t == "response.failed" || t == "response.incomplete"

lemma textConcat_append (l₁ l₂ : List Frame) :
    textConcat (l₁ ++ l₂) = textConcat l₁ ++ textConcat l₂ := by
  induction l₁ with
  | nil => simp [textConcat, String.empty_append]
  | cons f l₁ ih => cases f <;> simp [textConcat, ih, String.append_assoc]

lemma processEvents_cons_step (evs : List UpEvent) (cur0 lastType0 : String)
    (acc0 : List SearchResult) :
    ∀ e rest, evs = e :: rest → terminalType e.type = false →
    ∃ emitted cur' acc',
      processEvents evs cur0 lastType0 acc0 =
        emitted ++ processEvents rest cur' (if e.type = "" then lastType0 else e.type) acc' ∧
      (∀ f ∈ emitted, Frame.isTerminal f = false) ∧
      cur' = cur0 ++ textConcat emitted ∧
      (e.type ≠ "response.web_search_call.results" → acc' = acc0) := by
  induction evs, cur0, lastType0, acc0 using processEvents.induct with
  | case1 cur acc => intro e rest heq _; cases heq
  | case2 cur lastType acc h0 => intro e rest heq _; cases heq
  | case3 e' rest' cur lastType acc h0 _ =>
    rintro e rest heq _
    injection heq with he1 he2; subst he1; subst he2
    exact ⟨[], cur, acc, by simp [processEvents, h0], by simp, by simp [textConcat],
      fun _ => rfl⟩
  | case4 e' rest' cur lastType acc h0 h1 _ =>
    rintro e rest heq _
    injection heq with he1 he2; subst he1; subst he2
    exact ⟨[.event (.raw e')], cur, acc,
      by simp [processEvents, if_neg h0, if_pos h1],
      by simp [Frame.isTerminal], by simp [textConcat], fun _ => rfl⟩
  | case5 e' rest' cur lastType acc h0 h1 h2 _ =>
    rintro e rest heq _
    injection heq with he1 he2; subst he1; subst he2
    exact ⟨[.event (.webSearchStarted e'.time)], cur, acc,
      by simp [processEvents, if_neg h0, if_neg h1, if_pos h2],
      by simp [Frame.isTerminal], by simp [textConcat], fun _ => rfl⟩
  | case6 e' rest' cur lastType acc h0 h1 h2 h3 rs hres _ =>
    rintro e rest heq _
    injection heq with he1 he2; subst he1; subst he2
    exact ⟨[.event (.webSearchResults e'.time (rs.map normResult))], cur, rs,
      by simp [processEvents, if_neg h0, if_neg h1, if_neg h2, if_pos h3, hres],
      by simp [Frame.isTerminal], by simp [textConcat], fun hn => absurd h3 hn⟩
  | case7 e' rest' cur lastType acc h0 h1 h2 h3 hres _ =>
    rintro e rest heq _
    injection heq with he1 he2; subst he1; subst he2
    exact ⟨[], cur, acc,
      by simp [processEvents, if_neg h0, if_neg h1, if_neg h2, if_pos h3, hres],
      by simp, by simp [textConcat], fun _ => rfl⟩
  | case8 e' rest' cur lastType acc h0 h1 h2 h3 h4 _ =>
    rintro e rest heq _
    injection heq with he1 he2; subst he1; subst he2
    exact ⟨[.event (.webSearchCompleted e'.time acc.length)], cur, acc,
      by simp [processEvents, if_neg h0, if_neg h1, if_neg h2, if_neg h3, if_pos h4],
      by simp [Frame.isTerminal], by simp [textConcat], fun _ => rfl⟩
  | case9 e' rest' cur lastType acc h0 h1 h2 h3 h4 h5 _ =>
    rintro e rest heq _
    injection heq with he1 he2; subst he1; subst he2
    exact ⟨[.event (.webSearchFailed e'.time (jsOr e'.errorMessage "Web search failed"))],
      cur, acc,
      by simp [processEvents, if_neg h0, if_neg h1, if_neg h2, if_neg h3, if_neg h4, if_pos h5],
      by simp [Frame.isTerminal], by simp [textConcat], fun _ => rfl⟩
  | case10 e' rest' cur lastType acc h0 h1 h2 h3 h4 h5 h6 hdelta _ =>
    rintro e rest heq _
    injection heq with he1 he2; subst he1; subst he2
    exact ⟨[], cur, acc,
      by simp [processEvents, if_neg h0, if_neg h1, if_neg h2, if_neg h3, if_neg h4,
        if_neg h5, if_pos h6, hdelta],
      by simp, by simp [textConcat], fun _ => rfl⟩
  | case11 e' rest' cur lastType acc h0 h1 h2 h3 h4 h5 h6 d hdelta hd _ =>
    rintro e rest heq _
    injection heq with he1 he2; subst he1; subst he2
    exact ⟨[.text d], cur ++ d, acc,
      by simp [processEvents, if_neg h0, if_neg h1, if_neg h2, if_neg h3, if_neg h4,
        if_neg h5, if_pos h6, hdelta, hd],
      by simp [Frame.isTerminal], by simp [textConcat, String.append_empty], fun _ => rfl⟩
  | case12 e' rest' cur lastType acc h0 h1 h2 h3 h4 h5 h6 hdelta _ =>
    rintro e rest heq _
    injection heq with he1 he2; subst he1; subst he2
    exact ⟨[], cur, acc,
      by simp [processEvents, if_neg h0, if_neg h1, if_neg h2, if_neg h3, if_neg h4,
        if_neg h5, if_pos h6, hdelta],
      by simp, by simp [textConcat], fun _ => rfl⟩
  | case13 e' rest' cur lastType acc h0 h1 h2 h3 h4 h5 h6 h7 _ =>
    rintro e rest heq _
    injection heq with he1 he2; subst he1; subst he2
    exact ⟨[.event (.outputTextDone e'.time cur)], cur, acc,
      by simp [processEvents, if_neg h0, if_neg h1, if_neg h2, if_neg h3, if_neg h4,
        if_neg h5, if_neg h6, if_pos h7],
      by simp [Frame.isTerminal], by simp [textConcat], fun _ => rfl⟩
  | case14 e' rest' cur lastType acc h0 h1 h2 h3 h4 h5 h6 h7 h8 _ =>
    rintro e rest heq _
    injection heq with he1 he2; subst he1; subst he2
    exact ⟨[.event (.raw e')], cur, acc,
      by simp [processEvents, if_neg h0, if_neg h1, if_neg h2, if_neg h3, if_neg h4,
        if_neg h5, if_neg h6, if_neg h7, if_pos h8],
      by simp [Frame.isTerminal], by simp [textConcat], fun _ => rfl⟩
  | case15 e' rest' cur lastType acc h0 h1 h2 h3 h4 h5 h6 h7 h8 h9 =>
    rintro e rest heq hterm
    injection heq with he1 he2; subst he1; subst he2
    rw [h9] at hterm; exact absurd hterm (by decide)
  | case16 e' rest' cur lastType acc h0 h1 h2 h3 h4 h5 h6 h7 h8 h9 h10 =>
    rintro e rest heq hterm
    injection heq with he1 he2; subst he1; subst he2
    rw [h10] at hterm; exact absurd hterm (by decide)
  | case17 e' rest' cur lastType acc h0 h1 h2 h3 h4 h5 h6 h7 h8 h9 h10 h11 =>
    rintro e rest heq hterm
    injection heq with he1 he2; subst he1; subst he2
    rw [h11] at hterm; exact absurd hterm (by decide)
  | case18 e' rest' cur lastType acc h0 h1 h2 h3 h4 h5 h6 h7 h8 h9 h10 h11 _ =>
    rintro e rest heq _
    injection heq with he1 he2; subst he1; subst he2
    exact ⟨[], cur, acc,
      by simp only [processEvents, if_neg h0, if_neg h1, if_neg h2, if_neg h3, if_neg h4,
        if_neg h5, if_neg h6, if_neg h7, if_neg h8, if_neg h9, if_neg h10, if_neg h11,
        List.nil_append],
      by simp, by simp [textConcat], fun _ => rfl⟩

/-- Processing a block of non-terminal events prepends only non-terminal
frames and continues with updated accumulators. -/
lemma processEvents_append_neutral (evs₁ : List UpEvent) :
    ∀ (rest : List UpEvent) (cur lastType : String) (acc : List SearchResult),
    (∀ e ∈ evs₁, terminalType e.type = false) →
    ∃ fsA cur' lt' acc',
      processEvents (evs₁ ++ rest) cur lastType acc = fsA ++ processEvents rest cur' lt' acc' ∧
      (∀ f ∈ fsA, Frame.isTerminal f = false) ∧
      (lastType ≠ "response.completed" → lt' ≠ "response.completed") ∧
      ((∀ e ∈ evs₁, e.type ≠ "response.web_search_call.results") → acc' = acc) ∧
      cur' = cur ++ textConcat fsA := by
  induction evs₁ with
  | nil =>
    intro rest cur lastType acc _
    exact ⟨[], cur, lastType, acc, rfl, by simp, fun h => h, fun _ => rfl,
      by simp [textConcat, String.append_empty]⟩
  | cons e evs₁ ih =>
    intro rest cur lastType acc hneutral
    obtain ⟨emitted, cur1, acc1, heq, hterm, hcur1, hacc1⟩ :=
      processEvents_cons_step (e :: (evs₁ ++ rest)) cur lastType acc e (evs₁ ++ rest) rfl
        (hneutral e (List.mem_cons_self e _))
    obtain ⟨fsA, cur', lt', acc', heq2, hterm2, hlt2, hacc2, hcur2⟩ :=
      ih rest cur1 (if e.type = "" then lastType else e.type) acc1
        (fun e' he' => hneutral e' (List.mem_cons_of_mem _ he'))
    refine ⟨emitted ++ fsA, cur', lt', acc', ?_, ?_, ?_, ?_, ?_⟩
    · rw [List.cons_append, heq, heq2, List.append_assoc]
    · intro f hf
      rcases List.mem_append.mp hf with h | h
      · exact hterm f h
      · exact hterm2 f h
    · intro hne
      apply hlt2
      split
      · exact hne
      · have hn := hneutral e (List.mem_cons_self e _)
        intro hc; rw [hc] at hn; exact absurd hn (by decide)
    · intro hall
      have h1 : acc1 = acc := hacc1 (hall e (List.mem_cons_self e _))
      have h2 := hacc2 (fun e' he' => hall e' (List.mem_cons_of_mem _ he'))
      rw [h2, h1]
    · rw [hcur2, hcur1, textConcat_append, String.append_assoc]

/-- C1: every upstream session makes the adapter emit exactly one terminal
frame (`done` or `error`), and that terminal frame is the last frame of the
outbound stream; this covers the completion, incomplete, failure/catch and
exhausted-session paths uniformly. -/
theorem relay_exactly_one_terminal_frame (events : List UpEvent) :
    ∃ fs t, relayAdapter events = fs ++ [t] ∧ Frame.isTerminal t = true ∧
      ∀ f ∈ fs, Frame.isTerminal f = false :=
  processEvents_shape events "" "" [] (by decide)

/-! ## Reader-side invariants -/

/-- The message with which a record makes the reader loop throw: the message
of an `error` frame, or the parse-failure message of a malformed record. -/
def recFail : RecordItem → Option String
  | .malformed msg => some msg
  | .frame (.error msg _) _ => some msg
  | _ => none

/-- The text contributed by one record to the assistant message. -/
def recText : RecordItem → String
  | .frame (.text d) _ => d
  | _ => ""

/-- Concatenation of the text deltas of a record list. -/
def textConcatRecords : List RecordItem → String
  | [] => ""
  | r :: rest => recText r ++ textConcatRecords rest

lemma textConcatRecords_recordsOf (fs : List Frame) :
    ∀ times, textConcatRecords (recordsOf fs times) = textConcat fs := by
  induction fs with
  | nil => intro times; cases times <;> rfl
  | cons f fs ih =>
    intro times
    cases times with
    | nil => cases f <;> simp [recordsOf, textConcatRecords, recText, textConcat, ih,
        String.empty_append]
    | cons t ts => cases f <;> simp [recordsOf, textConcatRecords, recText, textConcat, ih,
        String.empty_append]

lemma stepRecord_error_iff (st : ClientState) (r : RecordItem) (m : String) :
    stepRecord st r = .error m ↔ recFail r = some m := by
  cases r with
  | blank => simp [stepRecord, recFail]
  | sentinel => simp [stepRecord, recFail]
  | malformed msg => simp [stepRecord, recFail]
  | frame f t => cases f <;> simp [stepRecord, recFail]

lemma map_update_fresh (l : List Msg) (i : Nat) (a : Msg) (h : ∀ m ∈ l, m.id ≠ i) :
    l.map (fun m => if m.id = i then a else m) = l := by
  induction l with
  | nil => rfl
  | cons x l ih =>
    simp only [List.map_cons, if_neg (h x (List.mem_cons_self x _)),
      ih (fun m hm => h m (List.mem_cons_of_mem _ hm))]

lemma stepRecord_ok_errorMsg (st : ClientState) (r : RecordItem) (st2 : ClientState)
    (h : stepRecord st r = .ok st2) : st2.errorMsg = st.errorMsg := by
  cases r with
  | blank => injection h with h2; rw [← h2]
  | sentinel => injection h with h2; rw [← h2]
  | malformed msg => simp [stepRecord] at h
  | frame f t =>
    cases f with
    | text d => injection h with h2; rw [← h2]
    | event p => injection h with h2; rw [← h2]
    | error m d => simp [stepRecord] at h
    | done => injection h with h2; rw [← h2]

/-- Non-failing records step successfully and only grow the assistant
content, keeping the error flag, the request start, the assistant identity
and the shape of the conversation. -/
lemma stepRecord_ok_of_no_fail (st : ClientState) (r : RecordItem) (h : recFail r = none) :
    ∃ st2, stepRecord st r = .ok st2 ∧
      st2.errorMsg = st.errorMsg ∧
      st2.requestStart = st.requestStart ∧
      st2.assistant.id = st.assistant.id ∧
      st2.assistant.role = st.assistant.role ∧
      st2.assistant.content = st.assistant.content ++ recText r ∧
      (∀ front, st.messages = front ++ [st.assistant] →
        (∀ m ∈ front, m.id ≠ st.assistant.id) → st2.messages = front ++ [st2.assistant]) := by
  cases r with
  | blank =>
    exact ⟨st, rfl, rfl, rfl, rfl, rfl, (String.append_empty _).symm,
      fun front h1 _ => h1⟩
  | sentinel =>
    exact ⟨st, rfl, rfl, rfl, rfl, rfl, (String.append_empty _).symm,
      fun front h1 _ => h1⟩
  | malformed msg => simp [recFail] at h
  | frame f t =>
    cases f with
    | text d =>
      refine ⟨_, rfl, rfl, rfl, rfl, rfl, rfl, ?_⟩
      intro front h1 hf
      simp only [h1, List.map_append, List.map_cons, List.map_nil]
      rw [map_update_fresh front st.assistant.id _ (fun m hm => hf m hm)]
      simp
    | event p =>
      refine ⟨_, rfl, rfl, rfl, rfl, rfl, (String.append_empty _).symm, ?_⟩
      intro front h1 _
      exact h1
    | error m d => simp [recFail] at h
    | done =>
      exact ⟨st, rfl, rfl, rfl, rfl, rfl, (String.append_empty _).symm,
        fun front h1 _ => h1⟩

/-- A run over non-failing records: the error flag, request start and
assistant identity are preserved, and the assistant grows by exactly the
concatenated deltas, staying the last message of the conversation. -/
lemma runRecords_no_abort (recs : List RecordItem) :
    ∀ st front, (∀ r ∈ recs, recFail r = none) →
      st.messages = front ++ [st.assistant] → (∀ m ∈ front, m.id ≠ st.assistant.id) →
      (runRecords st recs).errorMsg = st.errorMsg ∧
      (runRecords st recs).requestStart = st.requestStart ∧
      (runRecords st recs).assistant.id = st.assistant.id ∧
      (runRecords st recs).assistant.role = st.assistant.role ∧
      (runRecords st recs).assistant.content = st.assistant.content ++ textConcatRecords recs ∧
      (runRecords st recs).messages = front ++ [(runRecords st recs).assistant] := by
  induction recs with
  | nil =>
    intro st front _ h1 _
    exact ⟨rfl, rfl, rfl, rfl, (String.append_empty _).symm, h1⟩
  | cons r rest ih =>
    intro st front hok h1 hf
    obtain ⟨st2, hstep, herr, hreq, hid, hrole, hcontent, hmsg⟩ :=
      stepRecord_ok_of_no_fail st r (hok r (List.mem_cons_self r _))
    have hrun : runRecords st (r :: rest) = runRecords st2 rest := by
      simp [runRecords, hstep]
    have hf2 : ∀ m ∈ front, m.id ≠ st2.assistant.id := by
      intro m hm; rw [hid]; exact hf m hm
    obtain ⟨e1, e2, e3, e4, e5, e6⟩ :=
      ih st2 front (fun x hx => hok x (List.mem_cons_of_mem _ hx)) (hmsg front h1 hf) hf2
    rw [hrun]
    refine ⟨by rw [e1, herr], by rw [e2, hreq], by rw [e3, hid], by rw [e4, hrole], ?_, e6⟩
    rw [e5, hcontent, String.append_assoc]
    simp only [textConcatRecords]

/-- Any record in the run up to and including the first failing one splits
the record list: a clean prefix, the failing record, and the catch applied
to the state reached by the prefix. -/
lemma runRecords_split (recs : List RecordItem) :
    ∀ st m, st.errorMsg = none → (runRecords st recs).errorMsg = some m →
    ∃ recs₁ r recs₂, recs = recs₁ ++ r :: recs₂ ∧
      (∀ x ∈ recs₁, recFail x = none) ∧
      recFail r = some m ∧
      runRecords st recs = applyCatch (runRecords st recs₁) m := by
  induction recs with
  | nil =>
    intro st m h0 h
    rw [runRecords] at h
    rw [h0] at h
    cases h
  | cons r rest ih =>
    intro st m h0 h
    cases hstep : stepRecord st r with
    | ok st2 =>
      have h2 : runRecords st (r :: rest) = runRecords st2 rest := by
        simp [runRecords, hstep]
      have herr2 : st2.errorMsg = none := by
        rw [stepRecord_ok_errorMsg st r st2 hstep, h0]
      obtain ⟨recs₁, r', recs₂, hrec, hclean, hfail, hcat⟩ :=
        ih st2 m herr2 (by rw [← h2]; exact h)
      refine ⟨r :: recs₁, r', recs₂, by rw [hrec]; simp, ?_, hfail, ?_⟩
      · intro x hx
        rcases List.mem_cons.mp hx with rfl | hx'
        · cases hfailr : recFail x with
          | none => rfl
          | some msg =>
            rw [(stepRecord_error_iff st x msg).mpr hfailr] at hstep
            cases hstep
        · exact hclean x hx'
      · rw [h2, hcat]
        congr 1
        simp [runRecords, hstep]
    | error msg =>
      have h2 : runRecords st (r :: rest) = applyCatch st msg := by
        simp [runRecords, hstep]
      have hm : msg = m := by
        rw [h2] at h
        simpa [applyCatch] using h
      subst hm
      exact ⟨[], r, rest, rfl, by simp, (stepRecord_error_iff _ _ _).mp hstep, h2⟩

lemma filter_ne_fresh (l : List Msg) (i : Nat) (h : ∀ m ∈ l, m.id ≠ i) :
    l.filter (fun m => m.id != i) = l := by
  induction l with
  | nil => rfl
  | cons x l ih =>
    simp only [List.filter_cons]
    rw [if_pos (by simpa using h x (List.mem_cons_self x _)),
        ih (fun m hm => h m (List.mem_cons_of_mem _ hm))]

/-- The `catch` block: the assistant message is dropped, the banner is set,
the event log is untouched. -/
lemma applyCatch_spec (st : ClientState) (msg : String) (front : List Msg)
    (h1 : st.messages = front ++ [st.assistant]) (hf : ∀ m ∈ front, m.id ≠ st.assistant.id) :
    (applyCatch st msg).messages = front ∧ (applyCatch st msg).errorMsg = some msg ∧
    (applyCatch st msg).apiEvents = st.apiEvents := by
  refine ⟨?_, rfl, rfl⟩
  show st.messages.filter (fun m => m.id != st.assistant.id) = front
  rw [h1, List.filter_append, filter_ne_fresh front _ hf]
  simp

/-- C3: on any terminal error (error frame, malformed record, non-success
HTTP status, missing body stream) the Stream Reader removes the in-progress
assistant message from the conversation, shows a single error banner with
the failure message, and leaves the event log entries appended so far
unchanged. -/
theorem terminal_error_rolls_back (prev : List Msg) (userMsg : Msg) (aid startTime : Nat)
    (input : ReadInput) (m : String)
    (hfresh : ∀ p ∈ prev, p.id ≠ aid) (hu : userMsg.id ≠ aid)
    (herr : (streamReader prev userMsg aid startTime input).errorMsg = some m) :
    (streamReader prev userMsg aid startTime input).messages = prev ++ [userMsg] ∧
    (input = .httpError → m = "Failed to send message" ∧
      (streamReader prev userMsg aid startTime input).apiEvents = [requestEntry startTime]) ∧
    (input = .noStream → m = "No response stream available" ∧
      (streamReader prev userMsg aid startTime input).apiEvents = [requestEntry startTime]) ∧
    (∀ recs, input = .stream recs → ∃ recs₁ r recs₂, recs = recs₁ ++ r :: recs₂ ∧
      (∀ x ∈ recs₁, recFail x = none) ∧ recFail r = some m ∧
      (streamReader prev userMsg aid startTime input).apiEvents =
        (runRecords (initState prev userMsg aid startTime) recs₁).apiEvents) := by
  have h1 : (initState prev userMsg aid startTime).messages =
      (prev ++ [userMsg]) ++ [(initState prev userMsg aid startTime).assistant] := by
    simp [initState]
  have hff : ∀ x ∈ prev ++ [userMsg],
      x.id ≠ (initState prev userMsg aid startTime).assistant.id := by
    intro x hx
    rcases List.mem_append.mp hx with hx | hx
    · exact hfresh x hx
    · rcases List.mem_singleton.mp hx with rfl
      exact hu
  cases input with
  | httpError =>
    obtain ⟨hmsgs, herrA, hlog⟩ :=
      applyCatch_spec (initState prev userMsg aid startTime) "Failed to send message"
        (prev ++ [userMsg]) h1 hff
    have hm : m = "Failed to send message" := by
      have := herr
      rw [show streamReader prev userMsg aid startTime .httpError =
        applyCatch (initState prev userMsg aid startTime) "Failed to send message" from rfl,
        herrA] at this
      exact (Option.some.injEq _ _ ▸ this).symm
    refine ⟨hmsgs, ?_, ?_, ?_⟩
    · intro _; exact ⟨hm, hlog⟩
    · intro hc; cases hc
    · intro recs hc; cases hc
  | noStream =>
    obtain ⟨hmsgs, herrA, hlog⟩ :=
      applyCatch_spec (initState prev userMsg aid startTime) "No response stream available"
        (prev ++ [userMsg]) h1 hff
    have hm : m = "No response stream available" := by
      have := herr
      rw [show streamReader prev userMsg aid startTime .noStream =
        applyCatch (initState prev userMsg aid startTime) "No response stream available" from rfl,
        herrA] at this
      exact (Option.some.injEq _ _ ▸ this).symm
    refine ⟨hmsgs, ?_, ?_, ?_⟩
    · intro hc; cases hc
    · intro _; exact ⟨hm, hlog⟩
    · intro recs hc; cases hc
  | stream recs =>
    obtain ⟨recs₁, r, recs₂, hrec, hclean, hfail, hcat⟩ :=
      runRecords_split recs (initState prev userMsg aid startTime) m rfl herr
    obtain ⟨e1, e2, e3, e4, e5, e6⟩ :=
      runRecords_no_abort recs₁ (initState prev userMsg aid startTime)
        (prev ++ [userMsg]) hclean h1 hff
    have hff2 : ∀ x ∈ prev ++ [userMsg],
        x.id ≠ (runRecords (initState prev userMsg aid startTime) recs₁).assistant.id := by
      intro x hx; rw [e3]; exact hff x hx
    obtain ⟨hmsgs, herrA, hlog⟩ :=
      applyCatch_spec (runRecords (initState prev userMsg aid startTime) recs₁) m
        (prev ++ [userMsg]) e6 hff2
    have hread : streamReader prev userMsg aid startTime (.stream recs) =
        applyCatch (runRecords (initState prev userMsg aid startTime) recs₁) m := hcat
    refine ⟨by rw [hread]; exact hmsgs, ?_, ?_, ?_⟩
    · intro hc; cases hc
    · intro hc; cases hc
    intro recs' hc
    injection hc with hc'
    subst hc'
    exact ⟨recs₁, r, recs₂, hrec, hclean, hfail, by rw [hread]; exact hlog⟩

/-- Witness for C3 at a concrete errored stream. -/
theorem terminal_error_rolls_back_witness :
    (streamReader [] ⟨1, "user", "hi"⟩ 2 100
        (.stream [.frame (.text "He") 105, .frame (.error "boom" none) 106])).messages =
      [] ++ [⟨1, "user", "hi"⟩] ∧
    (ReadInput.stream [.frame (.text "He") 105, .frame (.error "boom" none) 106] =
        .httpError → "boom" = "Failed to send message" ∧
      (streamReader [] ⟨1, "user", "hi"⟩ 2 100
        (.stream [.frame (.text "He") 105, .frame (.error "boom" none) 106])).apiEvents =
        [requestEntry 100]) ∧
    (ReadInput.stream [.frame (.text "He") 105, .frame (.error "boom" none) 106] =
        .noStream → "boom" = "No response stream available" ∧
      (streamReader [] ⟨1, "user", "hi"⟩ 2 100
        (.stream [.frame (.text "He") 105, .frame (.error "boom" none) 106])).apiEvents =
        [requestEntry 100]) ∧
    (∀ recs, ReadInput.stream [.frame (.text "He") 105, .frame (.error "boom" none) 106] =
        .stream recs → ∃ recs₁ r recs₂, recs = recs₁ ++ r :: recs₂ ∧
      (∀ x ∈ recs₁, recFail x = none) ∧ recFail r = some "boom" ∧
      (streamReader [] ⟨1, "user", "hi"⟩ 2 100
        (.stream [.frame (.text "He") 105, .frame (.error "boom" none) 106])).apiEvents =
        (runRecords (initState [] ⟨1, "user", "hi"⟩ 2 100) recs₁).apiEvents) :=
  terminal_error_rolls_back [] ⟨1, "user", "hi"⟩ 2 100
    (.stream [.frame (.text "He") 105, .frame (.error "boom" none) 106]) "boom"
    (by simp) (by decide) (by decide)

/-! ## Text reassembly -/

/-- Whether a frame is an `error` frame. -/
def Frame.isErrorFrame : Frame → Bool
  | .error _ _ => true
  | _ => false

lemma recFail_recordsOf (fs : List Frame) :
    ∀ times r, (∀ f ∈ fs, f.isErrorFrame = false) → r ∈ recordsOf fs times →
      recFail r = none := by
  induction fs with
  | nil => intro times r _ hr; cases times <;> simp [recordsOf] at hr
  | cons f fs ih =>
    intro times r h hr
    have hf := h f (List.mem_cons_self f _)
    have hrest : ∀ g ∈ fs, g.isErrorFrame = false :=
      fun g hg => h g (List.mem_cons_of_mem _ hg)
    cases times with
    | nil =>
      simp only [recordsOf] at hr
      rcases List.mem_cons.mp hr with rfl | hr'
      · cases f with
        | error m d => simp [Frame.isErrorFrame] at hf
        | text d => rfl
        | event p => rfl
        | done => rfl
      · exact ih [] r hrest hr'
    | cons t ts =>
      simp only [recordsOf] at hr
      rcases List.mem_cons.mp hr with rfl | hr'
      · cases f with
        | error m d => simp [Frame.isErrorFrame] at hf
        | text d => rfl
        | event p => rfl
        | done => rfl
      · exact ih ts r hrest hr'

/-- Every `response.output_text.done` frame the adapter emits carries as
`finalText` the accumulator at emission time: the initial accumulator plus
the deltas of all `text` frames emitted before it. -/
lemma processEvents_finalText (evs : List UpEvent) (cur0 lastType0 : String)
    (acc0 : List SearchResult) :
    ∀ fs₁ ts ft fs₂,
      processEvents evs cur0 lastType0 acc0 = fs₁ ++ Frame.event (.outputTextDone ts ft) :: fs₂ →
      ft = cur0 ++ textConcat fs₁ := by
  induction evs, cur0, lastType0, acc0 using processEvents.induct with
  | case1 cur acc =>
    intro fs₁ ts ft fs₂ heq
    have hmem : Frame.event (.outputTextDone ts ft) ∈
        fs₁ ++ Frame.event (.outputTextDone ts ft) :: fs₂ := by simp
    rw [← heq] at hmem
    simp [processEvents] at hmem
  | case2 cur lastType acc h0 =>
    intro fs₁ ts ft fs₂ heq
    have hmem : Frame.event (.outputTextDone ts ft) ∈
        fs₁ ++ Frame.event (.outputTextDone ts ft) :: fs₂ := by simp
    rw [← heq] at hmem
    simp [processEvents, h0] at hmem
  | case3 e rest cur lastType acc h0 ih =>
    intro fs₁ ts ft fs₂ heq
    simp only [processEvents, if_pos h0] at heq
    exact ih fs₁ ts ft fs₂ heq
  | case4 e rest cur lastType acc h0 h1 ih =>
    intro fs₁ ts ft fs₂ heq
    simp only [processEvents, if_neg h0, if_pos h1] at heq
    cases fs₁ with
    | nil => simp at heq
    | cons f fs₁ =>
      rw [List.cons_append] at heq
      injection heq with hf heq'
      subst hf
      rw [ih fs₁ ts ft fs₂ heq']
      simp [textConcat]
  | case5 e rest cur lastType acc h0 h1 h2 ih =>
    intro fs₁ ts ft fs₂ heq
    simp only [processEvents, if_neg h0, if_neg h1, if_pos h2] at heq
    cases fs₁ with
    | nil => simp at heq
    | cons f fs₁ =>
      rw [List.cons_append] at heq
      injection heq with hf heq'
      subst hf
      rw [ih fs₁ ts ft fs₂ heq']
      simp [textConcat]
  | case6 e rest cur lastType acc h0 h1 h2 h3 rs hres ih =>
    intro fs₁ ts ft fs₂ heq
    simp only [processEvents, if_neg h0, if_neg h1, if_neg h2, if_pos h3, hres] at heq
    cases fs₁ with
    | nil => simp at heq
    | cons f fs₁ =>
      rw [List.cons_append] at heq
      injection heq with hf heq'
      subst hf
      rw [ih fs₁ ts ft fs₂ heq']
      simp [textConcat]
  | case7 e rest cur lastType acc h0 h1 h2 h3 hres ih =>
    intro fs₁ ts ft fs₂ heq
    simp only [processEvents, if_neg h0, if_neg h1, if_neg h2, if_pos h3, hres] at heq
    exact ih fs₁ ts ft fs₂ heq
  | case8 e rest cur lastType acc h0 h1 h2 h3 h4 ih =>
    intro fs₁ ts ft fs₂ heq
    simp only [processEvents, if_neg h0, if_neg h1, if_neg h2, if_neg h3, if_pos h4] at heq
    cases fs₁ with
    | nil => simp at heq
    | cons f fs₁ =>
      rw [List.cons_append] at heq
      injection heq with hf heq'
      subst hf
      rw [ih fs₁ ts ft fs₂ heq']
      simp [textConcat]
  | case9 e rest cur lastType acc h0 h1 h2 h3 h4 h5 ih =>
    intro fs₁ ts ft fs₂ heq
    simp only [processEvents, if_neg h0, if_neg h1, if_neg h2, if_neg h3, if_neg h4,
      if_pos h5] at heq
    cases fs₁ with
    | nil => simp at heq
    | cons f fs₁ =>
      rw [List.cons_append] at heq
      injection heq with hf heq'
      subst hf
      rw [ih fs₁ ts ft fs₂ heq']
      simp [textConcat]
  | case10 e rest cur lastType acc h0 h1 h2 h3 h4 h5 h6 hdelta ih =>
    intro fs₁ ts ft fs₂ heq
    simp only [processEvents, if_neg h0, if_neg h1, if_neg h2, if_neg h3, if_neg h4,
      if_neg h5, if_pos h6, hdelta] at heq
    exact ih fs₁ ts ft fs₂ (by simpa using heq)
  | case11 e rest cur lastType acc h0 h1 h2 h3 h4 h5 h6 d hdelta hd ih =>
    intro fs₁ ts ft fs₂ heq
    simp only [processEvents, if_neg h0, if_neg h1, if_neg h2, if_neg h3, if_neg h4,
      if_neg h5, if_pos h6, hdelta, if_neg hd] at heq
    cases fs₁ with
    | nil => simp at heq
    | cons f fs₁ =>
      rw [List.cons_append] at heq
      injection heq with hf heq'
      subst hf
      rw [ih fs₁ ts ft fs₂ heq']
      simp [textConcat, String.append_assoc]
  | case12 e rest cur lastType acc h0 h1 h2 h3 h4 h5 h6 hdelta ih =>
    intro fs₁ ts ft fs₂ heq
    simp only [processEvents, if_neg h0, if_neg h1, if_neg h2, if_neg h3, if_neg h4,
      if_neg h5, if_pos h6, hdelta] at heq
    exact ih fs₁ ts ft fs₂ heq
  | case13 e rest cur lastType acc h0 h1 h2 h3 h4 h5 h6 h7 ih =>
    intro fs₁ ts ft fs₂ heq
    simp only [processEvents, if_neg h0, if_neg h1, if_neg h2, if_neg h3, if_neg h4,
      if_neg h5, if_neg h6, if_pos h7] at heq
    cases fs₁ with
    | nil =>
      rw [List.nil_append] at heq
      injection heq with hf heq'
      injection hf with hp
      injection hp with hts hft
      rw [← hft]
      simp [textConcat, String.append_empty]
    | cons f fs₁ =>
      rw [List.cons_append] at heq
      injection heq with hf heq'
      subst hf
      rw [ih fs₁ ts ft fs₂ heq']
      simp [textConcat]
  | case14 e rest cur lastType acc h0 h1 h2 h3 h4 h5 h6 h7 h8 ih =>
    intro fs₁ ts ft fs₂ heq
    simp only [processEvents, if_neg h0, if_neg h1, if_neg h2, if_neg h3, if_neg h4,
      if_neg h5, if_neg h6, if_neg h7, if_pos h8] at heq
    cases fs₁ with
    | nil => simp at heq
    | cons f fs₁ =>
      rw [List.cons_append] at heq
      injection heq with hf heq'
      subst hf
      rw [ih fs₁ ts ft fs₂ heq']
      simp [textConcat]
  | case15 e rest cur lastType acc h0 h1 h2 h3 h4 h5 h6 h7 h8 h9 =>
    intro fs₁ ts ft fs₂ heq
    have hmem : Frame.event (.outputTextDone ts ft) ∈
        fs₁ ++ Frame.event (.outputTextDone ts ft) :: fs₂ := by simp
    rw [← heq] at hmem
    simp [processEvents, h9] at hmem
  | case16 e rest cur lastType acc h0 h1 h2 h3 h4 h5 h6 h7 h8 h9 h10 =>
    intro fs₁ ts ft fs₂ heq
    have hmem : Frame.event (.outputTextDone ts ft) ∈
        fs₁ ++ Frame.event (.outputTextDone ts ft) :: fs₂ := by simp
    rw [← heq] at hmem
    simp [processEvents, h10] at hmem
  | case17 e rest cur lastType acc h0 h1 h2 h3 h4 h5 h6 h7 h8 h9 h10 h11 =>
    intro fs₁ ts ft fs₂ heq
    have hmem : Frame.event (.outputTextDone ts ft) ∈
        fs₁ ++ Frame.event (.outputTextDone ts ft) :: fs₂ := by simp
    rw [← heq] at hmem
    simp [processEvents, h11] at hmem
  | case18 e rest cur lastType acc h0 h1 h2 h3 h4 h5 h6 h7 h8 h9 h10 h11 ih =>
    intro fs₁ ts ft fs₂ heq
    simp only [processEvents, if_neg h0, if_neg h1, if_neg h2, if_neg h3, if_neg h4,
      if_neg h5, if_neg h6, if_neg h7, if_neg h8, if_neg h9, if_neg h10, if_neg h11] at heq
    exact ih fs₁ ts ft fs₂ heq

lemma Msg_ext (m : Msg) (i : Nat) (r c : String)
    (h1 : m.id = i) (h2 : m.role = r) (h3 : m.content = c) : m = ⟨i, r, c⟩ := by
  cases m
  simp only at h1 h2 h3
  rw [h1, h2, h3]

/-- C2: the assistant message the Stream Reader shows at completion equals
the concatenation, in emission order, of the deltas of all `text` frames
the adapter emitted, and every `response.output_text.done` event frame
carries `finalText` equal to the concatenation of the deltas accumulated up
to that point. -/
theorem text_deltas_match_final (events : List UpEvent) (prev : List Msg) (userMsg : Msg)
    (aid startTime : Nat) (times : List Nat)
    (hfresh : ∀ p ∈ prev, p.id ≠ aid) (hu : userMsg.id ≠ aid)
    (hok : ∀ f ∈ relayAdapter events, f.isErrorFrame = false) :
    (streamReader prev userMsg aid startTime
        (.stream (recordsOf (relayAdapter events) times))).messages =
      prev ++ [userMsg, ⟨aid, "assistant", textConcat (relayAdapter events)⟩] ∧
    (∀ fs₁ ts ft fs₂,
      relayAdapter events = fs₁ ++ Frame.event (.outputTextDone ts ft) :: fs₂ →
      ft = textConcat fs₁) := by
  constructor
  · have h1 : (initState prev userMsg aid startTime).messages =
        (prev ++ [userMsg]) ++ [(initState prev userMsg aid startTime).assistant] := by
      simp [initState]
    have hff : ∀ x ∈ prev ++ [userMsg],
        x.id ≠ (initState prev userMsg aid startTime).assistant.id := by
      intro x hx
      rcases List.mem_append.mp hx with hx | hx
      · exact hfresh x hx
      · rcases List.mem_singleton.mp hx with rfl
        exact hu
    obtain ⟨_, _, e3, e4, e5, e6⟩ :=
      runRecords_no_abort (recordsOf (relayAdapter events) times)
        (initState prev userMsg aid startTime) (prev ++ [userMsg])
        (fun r hr => recFail_recordsOf (relayAdapter events) times r hok hr) h1 hff
    have hasst : (runRecords (initState prev userMsg aid startTime)
        (recordsOf (relayAdapter events) times)).assistant =
        ⟨aid, "assistant", textConcat (relayAdapter events)⟩ := by
      refine Msg_ext _ _ _ _ (by rw [e3]; rfl) (by rw [e4]; rfl) ?_
      rw [e5, textConcatRecords_recordsOf]
      exact String.empty_append _
    show (runRecords (initState prev userMsg aid startTime)
        (recordsOf (relayAdapter events) times)).messages = _
    rw [e6, hasst]
    simp
  · intro fs₁ ts ft fs₂ heq
    have := processEvents_finalText events "" "" [] fs₁ ts ft fs₂ heq
    rw [this, String.empty_append]

/-- Witness for C2: deltas "Hel" then "lo" yield final assistant content
"Hello", and the `response.output_text.done` frame carries
`finalText = "Hello"`. -/
theorem text_deltas_match_final_witness :
    (streamReader [] ⟨1, "user", "hi"⟩ 2 100
        (.stream (recordsOf (relayAdapter
          [⟨"response.created", 3, none, none, none, none⟩,
           ⟨"response.output_text.delta", 4, some "Hel", none, none, none⟩,
           ⟨"response.output_text.delta", 5, some "lo", none, none, none⟩,
           ⟨"response.output_text.done", 6, none, none, none, none⟩,
           ⟨"response.completed", 7, none, none, none, none⟩]) [105, 106, 107, 110, 112, 113]))).messages =
      [] ++ [⟨1, "user", "hi"⟩, ⟨2, "assistant", textConcat (relayAdapter
          [⟨"response.created", 3, none, none, none, none⟩,
           ⟨"response.output_text.delta", 4, some "Hel", none, none, none⟩,
           ⟨"response.output_text.delta", 5, some "lo", none, none, none⟩,
           ⟨"response.output_text.done", 6, none, none, none, none⟩,
           ⟨"response.completed", 7, none, none, none, none⟩])⟩] ∧
    (∀ fs₁ ts ft fs₂,
      relayAdapter
          [⟨"response.created", 3, none, none, none, none⟩,
           ⟨"response.output_text.delta", 4, some "Hel", none, none, none⟩,
           ⟨"response.output_text.delta", 5, some "lo", none, none, none⟩,
           ⟨"response.output_text.done", 6, none, none, none, none⟩,
           ⟨"response.completed", 7, none, none, none, none⟩] =
        fs₁ ++ Frame.event (.outputTextDone ts ft) :: fs₂ →
      ft = textConcat fs₁) :=
  text_deltas_match_final
    [⟨"response.created", 3, none, none, none, none⟩,
     ⟨"response.output_text.delta", 4, some "Hel", none, none, none⟩,
     ⟨"response.output_text.delta", 5, some "lo", none, none, none⟩,
     ⟨"response.output_text.done", 6, none, none, none, none⟩,
     ⟨"response.completed", 7, none, none, none, none⟩]
    [] ⟨1, "user", "hi"⟩ 2 100 [105, 106, 107, 110, 112, 113]
    (by simp) (by decide) (by decide)

/-- The witnessed final content is literally "Hello". -/
theorem text_deltas_hello :
    textConcat (relayAdapter
      [⟨"response.created", 3, none, none, none, none⟩,
       ⟨"response.output_text.delta", 4, some "Hel", none, none, none⟩,
       ⟨"response.output_text.delta", 5, some "lo", none, none, none⟩,
       ⟨"response.output_text.done", 6, none, none, none, none⟩,
       ⟨"response.completed", 7, none, none, none, none⟩]) = "Hello" := by decide

/-! ## The exhausted-session safety net -/

lemma stepRecord_ok_totalElapsed (st : ClientState) (r : RecordItem) (st2 : ClientState)
    (h : stepRecord st r = .ok st2) (hs : st.totalElapsed.isSome = true) :
    st2.totalElapsed.isSome = true := by
  cases r with
  | blank => injection h with h2; rw [← h2]; exact hs
  | sentinel => injection h with h2; rw [← h2]; exact hs
  | malformed msg => simp [stepRecord] at h
  | frame f t =>
    cases f with
    | text d => injection h with h2; rw [← h2]; exact hs
    | event p =>
      injection h with h2
      rw [← h2]
      show (if p.kind = "response.completed" then some _ else st.totalElapsed).isSome = true
      split
      · rfl
      · exact hs
    | error m d => simp [stepRecord] at h
    | done => injection h with h2; rw [← h2]; exact hs

lemma runRecords_totalElapsed_mono (recs : List RecordItem) :
    ∀ st, st.totalElapsed.isSome = true →
      (runRecords st recs).totalElapsed.isSome = true := by
  induction recs with
  | nil => intro st hs; exact hs
  | cons r rest ih =>
    intro st hs
    cases hstep : stepRecord st r with
    | ok st2 =>
      rw [show runRecords st (r :: rest) = runRecords st2 rest from by simp [runRecords, hstep]]
      exact ih st2 (stepRecord_ok_totalElapsed st r st2 hstep hs)
    | error msg =>
      rw [show runRecords st (r :: rest) = applyCatch st msg from by simp [runRecords, hstep]]
      exact hs

lemma runRecords_completed_isSome (recs : List RecordItem) :
    ∀ st, (∀ r ∈ recs, recFail r = none) →
      (∃ p t, RecordItem.frame (Frame.event p) t ∈ recs ∧
        EventPayload.kind p = "response.completed") →
      (runRecords st recs).totalElapsed.isSome = true := by
  induction recs with
  | nil =>
    rintro st _ ⟨p, t, hmem, _⟩
    simp at hmem
  | cons r rest ih =>
    rintro st hok ⟨p, t, hmem, hp⟩
    cases hstep : stepRecord st r with
    | error msg =>
      have hc := hok r (List.mem_cons_self r _)
      rw [(stepRecord_error_iff st r msg).mp hstep] at hc
      cases hc
    | ok st2 =>
      rw [show runRecords st (r :: rest) = runRecords st2 rest from by simp [runRecords, hstep]]
      rcases List.mem_cons.mp hmem with heq | hmem'
      · subst heq
        apply runRecords_totalElapsed_mono
        injection hstep with h2
        rw [← h2]
        show (if p.kind = "response.completed" then some _ else st.totalElapsed).isSome = true
        rw [if_pos hp]
        rfl
      · exact ih st2 (fun x hx => hok x (List.mem_cons_of_mem _ hx)) ⟨p, t, hmem', hp⟩

lemma recordsOf_mem (fs : List Frame) :
    ∀ times f, f ∈ fs → ∃ t, RecordItem.frame f t ∈ recordsOf fs times := by
  induction fs with
  | nil => intro _ f hf; simp at hf
  | cons g fs ih =>
    intro times f hf
    rcases List.mem_cons.mp hf with rfl | hf'
    · cases times with
      | nil => exact ⟨0, List.mem_cons_self _ _⟩
      | cons t ts => exact ⟨t, List.mem_cons_self _ _⟩
    · cases times with
      | nil =>
        obtain ⟨t, ht⟩ := ih [] f hf'
        exact ⟨t, List.mem_cons_of_mem _ ht⟩
      | cons t0 ts =>
        obtain ⟨t, ht⟩ := ih ts f hf'
        exact ⟨t, List.mem_cons_of_mem _ ht⟩

/-- C4: if the upstream session is exhausted without any terminal event
(no `response.completed`, `response.failed` or `response.incomplete`), the
adapter appends a synthesized `response.completed` event frame followed by
`done`, and the Stream Reader consequently finishes without error, records
a total elapsed time (the request is marked completed), and keeps the
assistant message with whatever partial text had accumulated. -/
theorem exhausted_session_synthesizes_completion (events : List UpEvent)
    (prev : List Msg) (userMsg : Msg) (aid startTime : Nat) (times : List Nat)
    (hfresh : ∀ p ∈ prev, p.id ≠ aid) (hu : userMsg.id ≠ aid)
    (hneutral : ∀ e ∈ events, terminalType e.type = false) :
    (∃ fs, relayAdapter events = fs ++ [Frame.event .synthCompleted, Frame.done] ∧
      ∀ f ∈ fs, Frame.isTerminal f = false) ∧
    (streamReader prev userMsg aid startTime
        (.stream (recordsOf (relayAdapter events) times))).errorMsg = none ∧
    (streamReader prev userMsg aid startTime
        (.stream (recordsOf (relayAdapter events) times))).totalElapsed.isSome = true ∧
    (streamReader prev userMsg aid startTime
        (.stream (recordsOf (relayAdapter events) times))).messages =
      prev ++ [userMsg, ⟨aid, "assistant", textConcat (relayAdapter events)⟩] := by
  obtain ⟨fsA, cur', lt', acc', heq, hterm, hlt, _, _⟩ :=
    processEvents_append_neutral events [] "" "" [] hneutral
  rw [List.append_nil] at heq
  have hlt' : lt' ≠ "response.completed" := hlt (by decide)
  have hnil : processEvents [] cur' lt' acc' = [.event .synthCompleted, .done] := by
    simp [processEvents, hlt']
  have hmain : relayAdapter events = fsA ++ [Frame.event .synthCompleted, Frame.done] := by
    show processEvents events "" "" [] = _
    rw [heq, hnil]
  have hok : ∀ f ∈ relayAdapter events, f.isErrorFrame = false := by
    intro f hf
    rw [hmain] at hf
    rcases List.mem_append.mp hf with h | h
    · have ht := hterm f h
      cases f <;> simp_all [Frame.isTerminal, Frame.isErrorFrame]
    · simp at h
      rcases h with rfl | rfl <;> rfl
  have h1 : (initState prev userMsg aid startTime).messages =
      (prev ++ [userMsg]) ++ [(initState prev userMsg aid startTime).assistant] := by
    simp [initState]
  have hff : ∀ x ∈ prev ++ [userMsg],
      x.id ≠ (initState prev userMsg aid startTime).assistant.id := by
    intro x hx
    rcases List.mem_append.mp hx with hx | hx
    · exact hfresh x hx
    · rcases List.mem_singleton.mp hx with rfl
      exact hu
  have hclean : ∀ r ∈ recordsOf (relayAdapter events) times, recFail r = none :=
    fun r hr => recFail_recordsOf (relayAdapter events) times r hok hr
  obtain ⟨e1, _, e3, e4, e5, e6⟩ :=
    runRecords_no_abort (recordsOf (relayAdapter events) times)
      (initState prev userMsg aid startTime) (prev ++ [userMsg]) hclean h1 hff
  refine ⟨⟨fsA, hmain, hterm⟩, e1, ?_, ?_⟩
  · apply runRecords_completed_isSome _ _ hclean
    obtain ⟨t, ht⟩ := recordsOf_mem (relayAdapter events) times (Frame.event .synthCompleted)
      (by rw [hmain]; simp)
    exact ⟨.synthCompleted, t, ht, rfl⟩
  · have hasst : (runRecords (initState prev userMsg aid startTime)
        (recordsOf (relayAdapter events) times)).assistant =
        ⟨aid, "assistant", textConcat (relayAdapter events)⟩ := by
      refine Msg_ext _ _ _ _ (by rw [e3]; rfl) (by rw [e4]; rfl) ?_
      rw [e5, textConcatRecords_recordsOf]
      exact String.empty_append _
    show (runRecords (initState prev userMsg aid startTime)
        (recordsOf (relayAdapter events) times)).messages = _
    rw [e6, hasst]
    simp

/-- Witness for C4: a session ending after `response.in_progress` and one
delta, with no completion event. -/
theorem exhausted_session_synthesizes_completion_witness :
    (∃ fs, relayAdapter
        [⟨"response.in_progress", 1, none, none, none, none⟩,
         ⟨"response.output_text.delta", 2, some "Hi", none, none, none⟩] =
        fs ++ [Frame.event .synthCompleted, Frame.done] ∧
      ∀ f ∈ fs, Frame.isTerminal f = false) ∧
    (streamReader [] ⟨1, "user", "hi"⟩ 2 100
        (.stream (recordsOf (relayAdapter
          [⟨"response.in_progress", 1, none, none, none, none⟩,
           ⟨"response.output_text.delta", 2, some "Hi", none, none, none⟩]) [105, 106, 107, 108]))).errorMsg =
      none ∧
    (streamReader [] ⟨1, "user", "hi"⟩ 2 100
        (.stream (recordsOf (relayAdapter
          [⟨"response.in_progress", 1, none, none, none, none⟩,
           ⟨"response.output_text.delta", 2, some "Hi", none, none, none⟩]) [105, 106, 107, 108]))).totalElapsed.isSome =
      true ∧
    (streamReader [] ⟨1, "user", "hi"⟩ 2 100
        (.stream (recordsOf (relayAdapter
          [⟨"response.in_progress", 1, none, none, none, none⟩,
           ⟨"response.output_text.delta", 2, some "Hi", none, none, none⟩]) [105, 106, 107, 108]))).messages =
      [] ++ [⟨1, "user", "hi"⟩, ⟨2, "assistant", textConcat (relayAdapter
          [⟨"response.in_progress", 1, none, none, none, none⟩,
           ⟨"response.output_text.delta", 2, some "Hi", none, none, none⟩])⟩] :=
  exhausted_session_synthesizes_completion
    [⟨"response.in_progress", 1, none, none, none, none⟩,
     ⟨"response.output_text.delta", 2, some "Hi", none, none, none⟩]
    [] ⟨1, "user", "hi"⟩ 2 100 [105, 106, 107, 108]
    (by simp) (by decide) (by decide)

/-! ## The terminal-incomplete path -/

/-- C5 counterexample: on a `response.incomplete` upstream event the adapter
emits an `error` frame whose message is the string "Response incomplete",
which is not the string "incomplete" the claim states. -/
theorem incomplete_message_counterexample :
    relayAdapter [⟨"response.incomplete", 1, none, none, none, some "max_output_tokens"⟩] =
      [Frame.error "Response incomplete" (some "max_output_tokens")] ∧
    "Response incomplete" ≠ "incomplete" := by
  constructor
  · decide
  · decide

/-- C5 amended: for every terminal-incomplete event reached after only
non-terminal events, the adapter emits an `error` frame with message
"Response incomplete" together with any provided incomplete details, and
closes the stream with no further frames following. -/
theorem incomplete_emits_error_then_closes (evs₁ : List UpEvent) (e : UpEvent)
    (evs₂ : List UpEvent)
    (hneutral : ∀ x ∈ evs₁, terminalType x.type = false)
    (hinc : e.type = "response.incomplete") :
    ∃ fs, relayAdapter (evs₁ ++ e :: evs₂) =
        fs ++ [Frame.error "Response incomplete" e.incompleteDetails] ∧
      ∀ f ∈ fs, Frame.isTerminal f = false := by
  obtain ⟨fsA, cur', lt', acc', heq, hterm, _, _, _⟩ :=
    processEvents_append_neutral evs₁ (e :: evs₂) "" "" [] hneutral
  have hstep : processEvents (e :: evs₂) cur' lt' acc' =
      [Frame.error "Response incomplete" e.incompleteDetails] := by
    simp [processEvents, hinc]
  refine ⟨fsA, ?_, hterm⟩
  show processEvents (evs₁ ++ e :: evs₂) "" "" [] = _
  rw [heq, hstep]

/-- Witness for the amended C5. -/
theorem incomplete_emits_error_then_closes_witness :
    ∃ fs, relayAdapter
        ([⟨"response.created", 1, none, none, none, none⟩] ++
          ⟨"response.incomplete", 2, none, none, none, some "max_output_tokens"⟩ ::
          [⟨"response.in_progress", 3, none, none, none, none⟩]) =
      fs ++ [Frame.error "Response incomplete" (some "max_output_tokens")] ∧
      ∀ f ∈ fs, Frame.isTerminal f = false :=
  incomplete_emits_error_then_closes
    [⟨"response.created", 1, none, none, none, none⟩]
    ⟨"response.incomplete", 2, none, none, none, some "max_output_tokens"⟩
    [⟨"response.in_progress", 3, none, none, none, none⟩]
    (by decide) (by decide)

/-! ## Event-log structure -/

/-- The payload/time pairs of the `event`-frame records of a stream, in
arrival order. -/
def eventFrames : List RecordItem → List (EventPayload × Nat)
  | [] => []
  | .frame (.event p) t :: rest => (p, t) :: eventFrames rest
  | _ :: rest => eventFrames rest

/-- The log entries derived from `event` frames, threading the time of the
previous processed event. -/
def buildLog (lastT : Nat) : List (EventPayload × Nat) → List LogEntry
  | [] => []
  | (p, t) :: rest =>
    { type := p.kind, timestamp := t, data := .payload p,
      elapsed := some ((t : Int) - (lastT : Int)) } :: buildLog t rest

lemma buildLog_length (l : List (EventPayload × Nat)) :
    ∀ lastT, (buildLog lastT l).length = l.length := by
  induction l with
  | nil => intro _; rfl
  | cons pt rest ih =>
    intro lastT
    obtain ⟨p, t⟩ := pt
    simp [buildLog, ih]

/-- C6 counterexample: a stream carrying exactly one `event` frame leaves
two entries in the event log (the seeded `request` entry plus the frame's
entry), so the log's entry count differs from the count of `event` frames
received. -/
theorem event_log_count_counterexample :
    (streamReader [] ⟨1, "user", "hi"⟩ 2 100
        (.stream [.frame (.event .synthCompleted) 105])).apiEvents.length = 2 ∧
    (eventFrames [.frame (.event .synthCompleted) 105]).length = 1 ∧
    (2 : Nat) ≠ 1 := by
  refine ⟨by decide, by decide, by decide⟩

/-- A run over non-failing records extends the log by exactly one entry per
`event` frame, in order, threading the previous event time. -/
lemma runRecords_log (recs : List RecordItem) :
    ∀ st, (∀ r ∈ recs, recFail r = none) →
      (runRecords st recs).apiEvents =
        st.apiEvents ++ buildLog st.lastEventTime (eventFrames recs) ∧
      (runRecords st recs).lastEventTime =
        ((eventFrames recs).foldl (fun _ pt => pt.2) st.lastEventTime) := by
  induction recs with
  | nil =>
    intro st _
    refine ⟨?_, rfl⟩
    show st.apiEvents = st.apiEvents ++ buildLog st.lastEventTime (eventFrames [])
    simp [eventFrames, buildLog]
  | cons r rest ih =>
    intro st hok
    have hok' : ∀ x ∈ rest, recFail x = none :=
      fun x hx => hok x (List.mem_cons_of_mem _ hx)
    cases r with
    | blank =>
      have h2 : runRecords st (.blank :: rest) = runRecords st rest := rfl
      rw [h2]
      simpa [eventFrames] using ih st hok'
    | sentinel =>
      have h2 : runRecords st (.sentinel :: rest) = runRecords st rest := rfl
      rw [h2]
      simpa [eventFrames] using ih st hok'
    | malformed msg =>
      have := hok (.malformed msg) (List.mem_cons_self _ _)
      simp [recFail] at this
    | frame f t =>
      cases f with
      | text d =>
        obtain ⟨ih1, ih2⟩ := ih _ hok'
        refine ⟨?_, ?_⟩
        · show (runRecords _ rest).apiEvents = _
          rw [ih1]
          rfl
        · show (runRecords _ rest).lastEventTime = _
          rw [ih2]
          rfl
      | event p =>
        obtain ⟨ih1, ih2⟩ := ih _ hok'
        refine ⟨?_, ?_⟩
        · show (runRecords _ rest).apiEvents = _
          rw [ih1]
          simp [eventFrames, buildLog, List.append_assoc]
        · show (runRecords _ rest).lastEventTime = _
          rw [ih2]
          rfl
      | error m d =>
        have := hok (.frame (.error m d) t) (List.mem_cons_self _ _)
        simp [recFail] at this
      | done =>
        obtain ⟨ih1, ih2⟩ := ih _ hok'
        refine ⟨?_, ?_⟩
        · show (runRecords _ rest).apiEvents = _
          rw [ih1]
          rfl
        · show (runRecords _ rest).lastEventTime = _
          rw [ih2]
          rfl

lemma buildLog_succ (l : List (EventPayload × Nat)) :
    ∀ (lastT : Nat) (base : LogEntry), base.timestamp = lastT →
      ∀ i e1 e2, (base :: buildLog lastT l)[i]? = some e1 →
        (base :: buildLog lastT l)[i+1]? = some e2 →
        e2.elapsed = some ((e2.timestamp : Int) - (e1.timestamp : Int)) := by
  induction l with
  | nil =>
    intro lastT base _ i e1 e2 _ h2
    rcases i with _ | i <;> simp [buildLog] at h2
  | cons pt rest ih =>
    intro lastT base hbase i e1 e2 h1 h2
    obtain ⟨p, t⟩ := pt
    rcases i with _ | i
    · simp only [buildLog, List.getElem?_cons_zero, List.getElem?_cons_succ,
        Option.some.injEq] at h1 h2
      subst h1
      subst h2
      rw [hbase]
    · simp only [List.getElem?_cons_succ] at h1 h2
      exact ih t ⟨p.kind, t, .payload p, some ((t : Int) - (lastT : Int))⟩ rfl i e1 e2
        (by simpa [buildLog] using h1) (by simpa [buildLog] using h2)

lemma buildLog_chain (l : List (EventPayload × Nat)) :
    ∀ lastT, List.Chain (· ≤ ·) lastT (l.map Prod.snd) →
      ∀ e ∈ buildLog lastT l, ∀ x, e.elapsed = some x → 0 ≤ x := by
  induction l with
  | nil => intro lastT _ e he; simp [buildLog] at he
  | cons pt rest ih =>
    intro lastT hchain e he x hx
    obtain ⟨p, t⟩ := pt
    simp only [List.map_cons] at hchain
    cases hchain with
    | cons hle hch =>
      rcases List.mem_cons.mp he with rfl | he'
      · have hx' : some ((t : Int) - (lastT : Int)) = some x := hx
        injection hx' with hx'
        subst hx'
        omega
      · exact ih t hch e he' x hx

/-- C6 amended: the event log consists of the seeded `request` entry
(timestamp = request start, no elapsed field) followed by one entry per
`event` frame received, in order; every frame entry's `elapsed` equals its
timestamp minus the previous entry's timestamp (the request start for the
first frame entry), and all elapsed values are non-negative whenever the
observed record times are non-decreasing from the request start. -/
theorem event_log_structure (prev : List Msg) (userMsg : Msg) (aid startTime : Nat)
    (recs : List RecordItem)
    (hclean : ∀ r ∈ recs, recFail r = none) :
    (streamReader prev userMsg aid startTime (.stream recs)).apiEvents =
      requestEntry startTime :: buildLog startTime (eventFrames recs) ∧
    (streamReader prev userMsg aid startTime (.stream recs)).apiEvents.length =
      (eventFrames recs).length + 1 ∧
    (∀ i e1 e2,
      (streamReader prev userMsg aid startTime (.stream recs)).apiEvents[i]? = some e1 →
      (streamReader prev userMsg aid startTime (.stream recs)).apiEvents[i+1]? = some e2 →
      e2.elapsed = some ((e2.timestamp : Int) - (e1.timestamp : Int))) ∧
    (List.Chain (· ≤ ·) startTime ((eventFrames recs).map Prod.snd) →
      ∀ e ∈ (streamReader prev userMsg aid startTime (.stream recs)).apiEvents,
        ∀ x, e.elapsed = some x → 0 ≤ x) := by
  obtain ⟨hlog, _⟩ :=
    runRecords_log recs (initState prev userMsg aid startTime) hclean
  have hmain : (streamReader prev userMsg aid startTime (.stream recs)).apiEvents =
      requestEntry startTime :: buildLog startTime (eventFrames recs) := by
    show (runRecords (initState prev userMsg aid startTime) recs).apiEvents = _
    rw [hlog]
    rfl
  refine ⟨hmain, ?_, ?_, ?_⟩
  · rw [hmain]
    simp [buildLog_length]
  · intro i e1 e2 h1 h2
    rw [hmain] at h1 h2
    exact buildLog_succ (eventFrames recs) startTime (requestEntry startTime) rfl i e1 e2 h1 h2
  · intro hchain e he x hx
    rw [hmain] at he
    rcases List.mem_cons.mp he with rfl | he'
    · cases hx
    · exact buildLog_chain (eventFrames recs) startTime hchain e he' x hx

/-- Witness for the amended C6. -/
theorem event_log_structure_witness :
    (streamReader [] ⟨1, "user", "hi"⟩ 2 100
        (.stream [.frame (.event .synthCompleted) 105, .frame (.done) 106])).apiEvents =
      requestEntry 100 :: buildLog 100 (eventFrames
        [.frame (.event .synthCompleted) 105, .frame (.done) 106]) ∧
    (streamReader [] ⟨1, "user", "hi"⟩ 2 100
        (.stream [.frame (.event .synthCompleted) 105, .frame (.done) 106])).apiEvents.length =
      (eventFrames [.frame (.event .synthCompleted) 105, .frame (.done) 106]).length + 1 ∧
    (∀ i e1 e2,
      (streamReader [] ⟨1, "user", "hi"⟩ 2 100
        (.stream [.frame (.event .synthCompleted) 105, .frame (.done) 106])).apiEvents[i]? = some e1 →
      (streamReader [] ⟨1, "user", "hi"⟩ 2 100
        (.stream [.frame (.event .synthCompleted) 105, .frame (.done) 106])).apiEvents[i+1]? = some e2 →
      e2.elapsed = some ((e2.timestamp : Int) - (e1.timestamp : Int))) ∧
    (List.Chain (· ≤ ·) 100 ((eventFrames
        [.frame (.event .synthCompleted) 105, .frame (.done) 106]).map Prod.snd) →
      ∀ e ∈ (streamReader [] ⟨1, "user", "hi"⟩ 2 100
        (.stream [.frame (.event .synthCompleted) 105, .frame (.done) 106])).apiEvents,
        ∀ x, e.elapsed = some x → 0 ≤ x) :=
  event_log_structure [] ⟨1, "user", "hi"⟩ 2 100
    [.frame (.event .synthCompleted) 105, .frame (.done) 106] (by decide)

/-! ## Unknown event kinds -/

/-- `lastEventType` only matters through the safety-net check, so any two
non-"response.completed" values of it are interchangeable. -/
lemma processEvents_lastType_irrel (evs : List UpEvent) :
    ∀ (cur : String) (acc : List SearchResult) (lt₁ lt₂ : String),
      lt₁ ≠ "response.completed" → lt₂ ≠ "response.completed" →
      processEvents evs cur lt₁ acc = processEvents evs cur lt₂ acc := by
  induction evs with
  | nil =>
    intro cur acc lt₁ lt₂ h₁ h₂
    simp [processEvents, h₁, h₂]
  | cons e rest ih =>
    intro cur acc lt₁ lt₂ h₁ h₂
    by_cases h0 : e.type = ""
    · simp only [processEvents, if_pos h0]
      exact ih cur acc lt₁ lt₂ h₁ h₂
    · simp only [processEvents, if_neg h0]

/-- Processing an unrecognized event leaves the whole outbound frame list
unchanged. -/
lemma processEvents_unknown_irrel (e : UpEvent) (ys : List UpEvent)
    (hu : recognizedType e.type = false) (evs : List UpEvent) (cur lt : String)
    (acc : List SearchResult) :
    ∀ xs, evs = xs ++ e :: ys → lt ≠ "response.completed" →
      processEvents evs cur lt acc = processEvents (xs ++ ys) cur lt acc := by
  have hvocab : e.type ≠ "response.completed" := by
    intro hc; rw [hc] at hu; exact absurd hu (by decide)
  induction evs, cur, lt, acc using processEvents.induct with
  | case1 cur acc =>
    intro xs heq hlt
    exact absurd rfl hlt
  | case2 cur lastType acc h0 =>
    intro xs heq hlt
    simp at heq
  | case3 x rest cur lastType acc h0 ih =>
    intro xs heq hlt
    cases xs with
    | nil =>
      injection heq with he hr
      subst he; subst hr
      simp only [processEvents, if_pos h0, List.nil_append]
    | cons x' xs' =>
      injection heq with he hr
      subst he; subst hr
      simp only [List.cons_append, processEvents, if_pos h0]
      exact ih xs' rfl hlt
  | case4 x rest cur lastType acc h0 h1 ih =>
    intro xs heq hlt
    cases xs with
    | nil =>
      injection heq with he hr
      subst he
      rcases h1 with h1 | h1 | h1 | h1 <;> (rw [h1] at hu; exact absurd hu (by decide))
    | cons x' xs' =>
      injection heq with he hr
      subst he; subst hr
      simp only [List.cons_append, processEvents, if_neg h0, if_pos h1]
      exact congrArg (List.cons _) (ih xs' rfl (by
        rcases h1 with h1 | h1 | h1 | h1 <;> (rw [h1]; decide)))
  | case5 x rest cur lastType acc h0 h1 h2 ih =>
    intro xs heq hlt
    cases xs with
    | nil =>
      injection heq with he hr
      subst he
      rw [h2] at hu; exact absurd hu (by decide)
    | cons x' xs' =>
      injection heq with he hr
      subst he; subst hr
      simp only [List.cons_append, processEvents, if_neg h0, if_neg h1, if_pos h2]
      exact congrArg (List.cons _) (ih xs' rfl (by rw [h2]; decide))
  | case6 x rest cur lastType acc h0 h1 h2 h3 rs hres ih =>
    intro xs heq hlt
    cases xs with
    | nil =>
      injection heq with he hr
      subst he
      rw [h3] at hu; exact absurd hu (by decide)
    | cons x' xs' =>
      injection heq with he hr
      subst he; subst hr
      simp only [List.cons_append, processEvents, if_neg h0, if_neg h1, if_neg h2,
        if_pos h3, hres]
      exact congrArg (List.cons _) (ih xs' rfl (by rw [h3]; decide))
  | case7 x rest cur lastType acc h0 h1 h2 h3 hres ih =>
    intro xs heq hlt
    cases xs with
    | nil =>
      injection heq with he hr
      subst he
      rw [h3] at hu; exact absurd hu (by decide)
    | cons x' xs' =>
      injection heq with he hr
      subst he; subst hr
      simp only [List.cons_append, processEvents, if_neg h0, if_neg h1, if_neg h2,
        if_pos h3, hres]
      exact ih xs' rfl (by rw [h3]; decide)
  | case8 x rest cur lastType acc h0 h1 h2 h3 h4 ih =>
    intro xs heq hlt
    cases xs with
    | nil =>
      injection heq with he hr
      subst he
      rw [h4] at hu; exact absurd hu (by decide)
    | cons x' xs' =>
      injection heq with he hr
      subst he; subst hr
      simp only [List.cons_append, processEvents, if_neg h0, if_neg h1, if_neg h2,
        if_neg h3, if_pos h4]
      exact congrArg (List.cons _) (ih xs' rfl (by rw [h4]; decide))
  | case9 x rest cur lastType acc h0 h1 h2 h3 h4 h5 ih =>
    intro xs heq hlt
    cases xs with
    | nil =>
      injection heq with he hr
      subst he
      rw [h5] at hu; exact absurd hu (by decide)
    | cons x' xs' =>
      injection heq with he hr
      subst he; subst hr
      simp only [List.cons_append, processEvents, if_neg h0, if_neg h1, if_neg h2,
        if_neg h3, if_neg h4, if_pos h5]
      exact congrArg (List.cons _) (ih xs' rfl (by rw [h5]; decide))
  | case10 x rest cur lastType acc h0 h1 h2 h3 h4 h5 h6 hdelta ih =>
    intro xs heq hlt
    cases xs with
    | nil =>
      injection heq with he hr
      subst he
      rw [h6] at hu; exact absurd hu (by decide)
    | cons x' xs' =>
      injection heq with he hr
      subst he; subst hr
      simp only [List.cons_append, processEvents, if_neg h0, if_neg h1, if_neg h2,
        if_neg h3, if_neg h4, if_neg h5, if_pos h6, hdelta]
      exact ih xs' rfl (by rw [h6]; decide)
  | case11 x rest cur lastType acc h0 h1 h2 h3 h4 h5 h6 d hdelta hd ih =>
    intro xs heq hlt
    cases xs with
    | nil =>
      injection heq with he hr
      subst he
      rw [h6] at hu; exact absurd hu (by decide)
    | cons x' xs' =>
      injection heq with he hr
      subst he; subst hr
      simp only [List.cons_append, processEvents, if_neg h0, if_neg h1, if_neg h2,
        if_neg h3, if_neg h4, if_neg h5, if_pos h6, hdelta, if_neg hd]
      exact congrArg (List.cons _) (ih xs' rfl (by rw [h6]; decide))
  | case12 x rest cur lastType acc h0 h1 h2 h3 h4 h5 h6 hdelta ih =>
    intro xs heq hlt
    cases xs with
    | nil =>
      injection heq with he hr
      subst he
      rw [h6] at hu; exact absurd hu (by decide)
    | cons x' xs' =>
      injection heq with he hr
      subst he; subst hr
      simp only [List.cons_append, processEvents, if_neg h0, if_neg h1, if_neg h2,
        if_neg h3, if_neg h4, if_neg h5, if_pos h6, hdelta]
      exact ih xs' rfl (by rw [h6]; decide)
  | case13 x rest cur lastType acc h0 h1 h2 h3 h4 h5 h6 h7 ih =>
    intro xs heq hlt
    cases xs with
    | nil =>
      injection heq with he hr
      subst he
      rw [h7] at hu; exact absurd hu (by decide)
    | cons x' xs' =>
      injection heq with he hr
      subst he; subst hr
      simp only [List.cons_append, processEvents, if_neg h0, if_neg h1, if_neg h2,
        if_neg h3, if_neg h4, if_neg h5, if_neg h6, if_pos h7]
      exact congrArg (List.cons _) (ih xs' rfl (by rw [h7]; decide))
  | case14 x rest cur lastType acc h0 h1 h2 h3 h4 h5 h6 h7 h8 ih =>
    intro xs heq hlt
    cases xs with
    | nil =>
      injection heq with he hr
      subst he
      rcases h8 with h8 | h8 <;> (rw [h8] at hu; exact absurd hu (by decide))
    | cons x' xs' =>
      injection heq with he hr
      subst he; subst hr
      simp only [List.cons_append, processEvents, if_neg h0, if_neg h1, if_neg h2,
        if_neg h3, if_neg h4, if_neg h5, if_neg h6, if_neg h7, if_pos h8]
      exact congrArg (List.cons _) (ih xs' rfl (by rcases h8 with h8 | h8 <;> (rw [h8]; decide)))
  | case15 x rest cur lastType acc h0 h1 h2 h3 h4 h5 h6 h7 h8 h9 =>
    intro xs heq hlt
    cases xs with
    | nil =>
      injection heq with he hr
      subst he
      rw [h9] at hu; exact absurd hu (by decide)
    | cons x' xs' =>
      injection heq with he hr
      subst he; subst hr
      simp [List.cons_append, processEvents, h9]
  | case16 x rest cur lastType acc h0 h1 h2 h3 h4 h5 h6 h7 h8 h9 h10 =>
    intro xs heq hlt
    cases xs with
    | nil =>
      injection heq with he hr
      subst he
      rw [h10] at hu; exact absurd hu (by decide)
    | cons x' xs' =>
      injection heq with he hr
      subst he; subst hr
      simp [List.cons_append, processEvents, h10]
  | case17 x rest cur lastType acc h0 h1 h2 h3 h4 h5 h6 h7 h8 h9 h10 h11 =>
    intro xs heq hlt
    cases xs with
    | nil =>
      injection heq with he hr
      subst he
      rw [h11] at hu; exact absurd hu (by decide)
    | cons x' xs' =>
      injection heq with he hr
      subst he; subst hr
      simp [List.cons_append, processEvents, h11]
  | case18 x rest cur lastType acc h0 h1 h2 h3 h4 h5 h6 h7 h8 h9 h10 h11 ih =>
    intro xs heq hlt
    cases xs with
    | nil =>
      injection heq with he hr
      subst he; subst hr
      simp only [processEvents, if_neg h0, if_neg h1, if_neg h2, if_neg h3, if_neg h4,
        if_neg h5, if_neg h6, if_neg h7, if_neg h8, if_neg h9, if_neg h10, if_neg h11,
        List.nil_append]
      exact processEvents_lastType_irrel _ cur acc x.type lastType h9 hlt
    | cons x' xs' =>
      injection heq with he hr
      subst he; subst hr
      simp only [List.cons_append, processEvents, if_neg h0, if_neg h1, if_neg h2,
        if_neg h3, if_neg h4, if_neg h5, if_neg h6, if_neg h7, if_neg h8, if_neg h9,
        if_neg h10, if_neg h11]
      exact ih xs' rfl h9

/-- C8: an upstream event whose declared kind is outside the adapter's
recognized vocabulary produces no outbound frame and leaves the whole
outbound stream unchanged. -/
theorem unknown_events_dropped (xs ys : List UpEvent) (e : UpEvent)
    (hu : recognizedType e.type = false) :
    relayAdapter (xs ++ e :: ys) = relayAdapter (xs ++ ys) :=
  processEvents_unknown_irrel e ys hu (xs ++ e :: ys) "" "" [] xs rfl (by decide)

/-- Witness for C8 at a concrete unrecognized kind. -/
theorem unknown_events_dropped_witness :
    relayAdapter ([⟨"response.created", 1, none, none, none, none⟩] ++
        ⟨"response.future_feature", 2, none, none, none, none⟩ ::
        [⟨"response.output_text.delta", 3, some "Hi", none, none, none⟩]) =
      relayAdapter ([⟨"response.created", 1, none, none, none, none⟩] ++
        [⟨"response.output_text.delta", 3, some "Hi", none, none, none⟩]) :=
  unknown_events_dropped
    [⟨"response.created", 1, none, none, none, none⟩]
    [⟨"response.output_text.delta", 3, some "Hi", none, none, none⟩]
    ⟨"response.future_feature", 2, none, none, none, none⟩
    (by decide)

/-! ## Web-search results -/

lemma recFail_frame_none (f : Frame) (t : Nat) (h : f.isErrorFrame = false) :
    recFail (.frame f t) = none := by
  cases f with
  | error m d => simp [Frame.isErrorFrame] at h
  | text d => rfl
  | event p => rfl
  | done => rfl

/-- After processing a stream whose last record is an `event` frame of kind
`web_search.results` with a results list, the reader's search-results view
holds exactly that list. -/
lemma runRecords_recordsOf_last_results (fs : List Frame) :
    ∀ (times : List Nat) (st : ClientState) (p : EventPayload),
      (∀ f ∈ fs, f.isErrorFrame = false) →
      EventPayload.kind p = "web_search.results" →
      ∀ rsn, EventPayload.resultsField p = some rsn →
      (runRecords st (recordsOf (fs ++ [Frame.event p]) times)).webSearchResults = rsn := by
  induction fs with
  | nil =>
    intro times st p _ hk rsn hres
    cases times with
    | nil => simp [recordsOf, runRecords, stepRecord, hk, hres]
    | cons t ts => simp [recordsOf, runRecords, stepRecord, hk, hres]
  | cons f fs ih =>
    intro times st p hok hk rsn hres
    have hf := hok f (List.mem_cons_self f _)
    have hrest : ∀ g ∈ fs, g.isErrorFrame = false :=
      fun g hg => hok g (List.mem_cons_of_mem _ hg)
    cases times with
    | nil =>
      obtain ⟨st2, hstep, -, -, -, -, -, -⟩ :=
        stepRecord_ok_of_no_fail st (.frame f 0) (recFail_frame_none f 0 hf)
      rw [show recordsOf ((f :: fs) ++ [Frame.event p]) [] =
        .frame f 0 :: recordsOf (fs ++ [Frame.event p]) [] from rfl]
      rw [show runRecords st (.frame f 0 :: recordsOf (fs ++ [Frame.event p]) []) =
        runRecords st2 (recordsOf (fs ++ [Frame.event p]) []) from by simp [runRecords, hstep]]
      exact ih [] st2 p hrest hk rsn hres
    | cons t ts =>
      obtain ⟨st2, hstep, -, -, -, -, -, -⟩ :=
        stepRecord_ok_of_no_fail st (.frame f t) (recFail_frame_none f t hf)
      rw [show recordsOf ((f :: fs) ++ [Frame.event p]) (t :: ts) =
        .frame f t :: recordsOf (fs ++ [Frame.event p]) ts from rfl]
      rw [show runRecords st (.frame f t :: recordsOf (fs ++ [Frame.event p]) ts) =
        runRecords st2 (recordsOf (fs ++ [Frame.event p]) ts) from by simp [runRecords, hstep]]
      exact ih ts st2 p hrest hk rsn hres

/-- C7: a `response.web_search_call.results` event with result list `rs`
makes the adapter emit a `web_search.results` event frame carrying the
normalized `{title, url, snippet}` entries (one per result), the Stream
Reader's search-results view afterwards holds exactly those entries, and a
later `response.web_search_call.completed` event (with no intervening
results event) yields a `web_search.completed` frame whose `resultCount`
equals the length of `rs`. -/
theorem web_search_results_roundtrip (evs₁ evs₂ evs₃ : List UpEvent) (eR eC : UpEvent)
    (rs : List SearchResult)
    (hn1 : ∀ e ∈ evs₁, terminalType e.type = false)
    (hn2 : ∀ e ∈ evs₂, terminalType e.type = false)
    (hnores : ∀ e ∈ evs₂, e.type ≠ "response.web_search_call.results")
    (hR : eR.type = "response.web_search_call.results")
    (hRres : eR.results = some rs)
    (hC : eC.type = "response.web_search_call.completed") :
    ∃ fsA fsB fsRest,
      relayAdapter (evs₁ ++ eR :: (evs₂ ++ eC :: evs₃)) =
        fsA ++ Frame.event (.webSearchResults eR.time (rs.map normResult)) ::
          (fsB ++ Frame.event (.webSearchCompleted eC.time rs.length) :: fsRest) ∧
      (rs.map normResult).length = rs.length ∧
      (∀ f ∈ fsA, Frame.isTerminal f = false) ∧
      (∀ (prev : List Msg) (userMsg : Msg) (aid startTime : Nat) (times : List Nat),
        (streamReader prev userMsg aid startTime (.stream (recordsOf
            (fsA ++ [Frame.event (.webSearchResults eR.time (rs.map normResult))])
            times))).webSearchResults = rs.map normResult) := by
  obtain ⟨fsA, cur1, lt1, acc1, heqA, htermA, _, _, _⟩ :=
    processEvents_append_neutral evs₁ (eR :: (evs₂ ++ eC :: evs₃)) "" "" [] hn1
  have hstepR : processEvents (eR :: (evs₂ ++ eC :: evs₃)) cur1 lt1 acc1 =
      Frame.event (.webSearchResults eR.time (rs.map normResult)) ::
        processEvents (evs₂ ++ eC :: evs₃) cur1 eR.type rs := by
    conv_rhs => rw [hR]
    simp [processEvents, hR, hRres]
  obtain ⟨fsB, cur2, lt2, acc2, heqB, htermB, _, haccB, _⟩ :=
    processEvents_append_neutral evs₂ (eC :: evs₃) cur1 eR.type rs hn2
  have hacc2 : acc2 = rs := haccB hnores
  have hstepC : processEvents (eC :: evs₃) cur2 lt2 acc2 =
      Frame.event (.webSearchCompleted eC.time acc2.length) ::
        processEvents evs₃ cur2 eC.type acc2 := by
    conv_rhs => rw [hC]
    simp [processEvents, hC]
  refine ⟨fsA, fsB, processEvents evs₃ cur2 eC.type acc2, ?_, by simp, htermA, ?_⟩
  · show processEvents (evs₁ ++ eR :: (evs₂ ++ eC :: evs₃)) "" "" [] = _
    rw [heqA, hstepR, heqB, hstepC, hacc2]
  · intro prev userMsg aid startTime times
    have hokA : ∀ f ∈ fsA, f.isErrorFrame = false := by
      intro f hf
      have ht := htermA f hf
      cases f <;> simp_all [Frame.isTerminal, Frame.isErrorFrame]
    exact runRecords_recordsOf_last_results fsA times _
      (.webSearchResults eR.time (rs.map normResult)) hokA rfl _ rfl

/-- Witness for C7 with two concrete results. -/
theorem web_search_results_roundtrip_witness :
    ∃ fsA fsB fsRest,
      relayAdapter ([⟨"response.web_search_call.searching", 1, none, none, none, none⟩] ++
          ⟨"response.web_search_call.results", 2, none,
            some [⟨some "T1", some "u1", some "s1"⟩, ⟨none, some "u2", none⟩], none, none⟩ ::
          ([] ++ ⟨"response.web_search_call.completed", 3, none, none, none, none⟩ :: [])) =
        fsA ++ Frame.event (.webSearchResults 2
            ([⟨some "T1", some "u1", some "s1"⟩, ⟨none, some "u2", none⟩].map normResult)) ::
          (fsB ++ Frame.event (.webSearchCompleted 3
            ([⟨some "T1", some "u1", some "s1"⟩,
              (⟨none, some "u2", none⟩ : SearchResult)].length)) :: fsRest) ∧
      (([⟨some "T1", some "u1", some "s1"⟩,
          (⟨none, some "u2", none⟩ : SearchResult)].map normResult)).length =
        ([⟨some "T1", some "u1", some "s1"⟩, (⟨none, some "u2", none⟩ : SearchResult)]).length ∧
      (∀ f ∈ fsA, Frame.isTerminal f = false) ∧
      (∀ (prev : List Msg) (userMsg : Msg) (aid startTime : Nat) (times : List Nat),
        (streamReader prev userMsg aid startTime (.stream (recordsOf
            (fsA ++ [Frame.event (.webSearchResults 2
              ([⟨some "T1", some "u1", some "s1"⟩, ⟨none, some "u2", none⟩].map normResult))])
            times))).webSearchResults =
          [⟨some "T1", some "u1", some "s1"⟩, ⟨none, some "u2", none⟩].map normResult) :=
  web_search_results_roundtrip
    [⟨"response.web_search_call.searching", 1, none, none, none, none⟩] [] []
    ⟨"response.web_search_call.results", 2, none,
      some [⟨some "T1", some "u1", some "s1"⟩, ⟨none, some "u2", none⟩], none, none⟩
    ⟨"response.web_search_call.completed", 3, none, none, none, none⟩
    [⟨some "T1", some "u1", some "s1"⟩, ⟨none, some "u2", none⟩]
    (by decide) (by simp) (by simp) (by decide) (by decide) (by decide)

/-! ## Replay determinism -/

lemma recordsOf_cons (f : Frame) (fs : List Frame) (times : List Nat) :
    ∃ t times', recordsOf (f :: fs) times = .frame f t :: recordsOf fs times' := by
  cases times with
  | nil => exact ⟨0, [], rfl⟩
  | cons t ts => exact ⟨t, ts, rfl⟩

/-- Two runs of the reader over the same frame sequence, with arbitrary
observation times, agree on everything except wall-clock annotations:
same conversation, same assistant message, same error state, same search
results, and event-log entries with the same kinds and payloads in the same
order. -/
lemma runRecords_time_invariant (fs : List Frame) :
    ∀ (times₁ times₂ : List Nat) (st₁ st₂ : ClientState),
      st₁.messages = st₂.messages → st₁.assistant = st₂.assistant →
      st₁.errorMsg = st₂.errorMsg → st₁.webSearchResults = st₂.webSearchResults →
      st₁.apiEvents.map (fun en => (en.type, en.data)) =
        st₂.apiEvents.map (fun en => (en.type, en.data)) →
      ((runRecords st₁ (recordsOf fs times₁)).messages =
          (runRecords st₂ (recordsOf fs times₂)).messages ∧
        (runRecords st₁ (recordsOf fs times₁)).assistant =
          (runRecords st₂ (recordsOf fs times₂)).assistant ∧
        (runRecords st₁ (recordsOf fs times₁)).errorMsg =
          (runRecords st₂ (recordsOf fs times₂)).errorMsg ∧
        (runRecords st₁ (recordsOf fs times₁)).webSearchResults =
          (runRecords st₂ (recordsOf fs times₂)).webSearchResults ∧
        (runRecords st₁ (recordsOf fs times₁)).apiEvents.map (fun en => (en.type, en.data)) =
          (runRecords st₂ (recordsOf fs times₂)).apiEvents.map (fun en => (en.type, en.data))) := by
  induction fs with
  | nil =>
    intro times₁ times₂ st₁ st₂ h1 h2 h3 h4 h5
    cases times₁ <;> cases times₂ <;> exact ⟨h1, h2, h3, h4, h5⟩
  | cons f fs ih =>
    intro times₁ times₂ st₁ st₂ h1 h2 h3 h4 h5
    obtain ⟨t₁, ts₁, e₁⟩ := recordsOf_cons f fs times₁
    obtain ⟨t₂, ts₂, e₂⟩ := recordsOf_cons f fs times₂
    rw [e₁, e₂]
    cases f with
    | text d =>
      simp only [runRecords, stepRecord]
      exact ih ts₁ ts₂ _ _ (by rw [h1, h2]) (by rw [h2]) h3 h4 h5
    | event p =>
      simp only [runRecords, stepRecord]
      exact ih ts₁ ts₂ _ _ h1 h2 h3 (by rw [h4]) (by simp [h5])
    | error m d =>
      simp only [runRecords, stepRecord]
      exact ⟨by show List.filter _ _ = List.filter _ _; rw [h1, h2], h2, rfl, h4, h5⟩
    | done =>
      simp only [runRecords, stepRecord]
      exact ih ts₁ ts₂ _ _ h1 h2 h3 h4 h5

/-- C9: feeding the same captured, valid sequence of outbound frames to the
Stream Reader in two separate runs (with arbitrary, possibly different,
observation clocks) produces identical conversations — hence identical
final assistant message text — identical error state and search results,
and event logs with the same entry kinds and payloads in the same order. -/
theorem reader_replay_deterministic (prev : List Msg) (userMsg : Msg) (aid startTime : Nat)
    (fs : List Frame) (times₁ times₂ : List Nat) :
    (streamReader prev userMsg aid startTime (.stream (recordsOf fs times₁))).messages =
      (streamReader prev userMsg aid startTime (.stream (recordsOf fs times₂))).messages ∧
    (streamReader prev userMsg aid startTime (.stream (recordsOf fs times₁))).errorMsg =
      (streamReader prev userMsg aid startTime (.stream (recordsOf fs times₂))).errorMsg ∧
    (streamReader prev userMsg aid startTime (.stream (recordsOf fs times₁))).webSearchResults =
      (streamReader prev userMsg aid startTime (.stream (recordsOf fs times₂))).webSearchResults ∧
    (streamReader prev userMsg aid startTime (.stream (recordsOf fs times₁))).apiEvents.map
        (fun en => (en.type, en.data)) =
      (streamReader prev userMsg aid startTime (.stream (recordsOf fs times₂))).apiEvents.map
        (fun en => (en.type, en.data)) := by
  obtain ⟨g1, _, g3, g4, g5⟩ :=
    runRecords_time_invariant fs times₁ times₂ (initState prev userMsg aid startTime)
      (initState prev userMsg aid startTime) rfl rfl rfl rfl rfl
  exact ⟨g1, g3, g4, g5⟩

end ResponsesRelay
